import Mathlib

/-!
# go-cpm: the CP/M system-call layer (`cpm/cpm_syscalls.go`)

A shallow embedding of the BDOS call handlers of `cpm/cpm_syscalls.go`.

* Bytes, 16-bit addresses and file offsets are natural numbers; a conversion
  to `uint8` is written `uint8 n = n % 256` wherever the source narrows.
* The emulator context `CPM` carries the fields the handlers touch.
* The host operating system is explicit state (`Host`): a disk mapping file
  names to byte contents, a table of open descriptors with their positions,
  the names it refuses to open, the descriptors on which `Stat` fails, and the
  terminal mode.
* A handler returns an `Outcome`: the Go `error` (if any) together with the
  emulator and host states as they are when the handler returns, so effects
  that precede an early `return err` stay visible.
* Go strings are lists of characters (the runes a `range` loop visits).
* Guest memory is a total map from addresses to bytes; a range is laid out at
  consecutive addresses and is not wrapped at `0xFFFF`.
-/

namespace Cpm

/-! ## Constants and machine integers -/

/-- The size of block-based I/O operations (`blkSize`). -/
def blkSize : Nat := 128

/-- The maximum record count (`maxRC`). -/
def maxRC : Nat := 128

/-- Narrowing conversion `uint8(n)` of a non-negative integer. -/
def uint8 (n : Nat) : Nat := n % 256

/-! ## The FCB codec (package `fcb`) -/

/-- Modelled from the spec: the `fcb.FCB` structure of the `fcb` package,
which is not among the sources. It is the fixed 36-byte File Control Block:
drive, 8-byte name, 3-byte type, extent, two reserved bytes, record count,
16 block-pointer bytes, current record and the three random-record bytes. -/
structure FCB where
  Drive : Nat
  Name : List Nat
  Typ : List Nat
  Ex : Nat
  S1 : Nat
  S2 : Nat
  RC : Nat
  Al : List Nat
  Cr : Nat
  R0 : Nat
  R1 : Nat
  R2 : Nat
deriving DecidableEq

/-- A byte list forced to the width `n` of a fixed-size array field. -/
def fixed (n : Nat) (l : List Nat) : List Nat :=
  (l ++ List.replicate n 0).take n

/-- Modelled from the spec: `fcb.FromBytes`, the parse of a 36-byte range
into an FCB, field by field in layout order. -/
def FromBytes (b : List Nat) : FCB :=
  { Drive := b.getD 0 0
    Name := fixed 8 (b.drop 1)
    Typ := fixed 3 (b.drop 9)
    Ex := b.getD 12 0
    S1 := b.getD 13 0
    S2 := b.getD 14 0
    RC := b.getD 15 0
    Al := fixed 16 (b.drop 16)
    Cr := b.getD 32 0
    R0 := b.getD 33 0
    R1 := b.getD 34 0
    R2 := b.getD 35 0 }

/-- Modelled from the spec: `FCB.AsBytes`, the serialisation of an FCB to its
36 bytes, the exact inverse of `FromBytes`. -/
def FCB.AsBytes (f : FCB) : List Nat :=
  [f.Drive] ++ fixed 8 f.Name ++ fixed 3 f.Typ ++ [f.Ex, f.S1, f.S2, f.RC]
    ++ fixed 16 f.Al ++ [f.Cr, f.R0, f.R1, f.R2]

/-- Drop the trailing padding spaces of a character list. -/
def trimRight (l : List Char) : List Char :=
  (l.reverse.dropWhile (fun c => c == ' ')).reverse

/-- Modelled from the spec: `FCB.GetName`, the name field as a string,
trimmed of its padding. -/
def FCB.GetName (f : FCB) : List Char :=
  trimRight ((fixed 8 f.Name).map Char.ofNat)

/-- Modelled from the spec: `FCB.GetType`, the type field as a string,
trimmed of its padding. -/
def FCB.GetType (f : FCB) : List Char :=
  trimRight ((fixed 3 f.Typ).map Char.ofNat)

/-- Modelled from the spec: `FCB.GetSequentialOffset`, the byte offset of the
sequential cursor, `currentRecord * 128`. -/
def FCB.GetSequentialOffset (f : FCB) : Nat := f.Cr * 128

/-- Modelled from the spec: `FCB.IncreaseSequentialOffset`, which advances
the current-record byte by one. -/
def FCB.IncreaseSequentialOffset (f : FCB) : FCB :=
  { f with Cr := uint8 (f.Cr + 1) }

/-! ## Guest memory -/

/-- Modelled from the spec: the flat byte-addressable guest memory, one byte
per address. -/
abbrev Memory := Nat → Nat

/-- Modelled from the spec: `Memory.GetRange`, the `n` bytes starting at
`addr`. -/
def GetRange (m : Memory) (addr : Nat) : Nat → List Nat
  | 0 => []
  | n + 1 => m addr :: GetRange m (addr + 1) n

/-- Modelled from the spec: `Memory.PutRange`, which stores `data` at the
consecutive addresses starting at `addr`. -/
def PutRange (m : Memory) (addr : Nat) (data : List Nat) : Memory :=
  fun a => if addr ≤ a ∧ a < addr + data.length then data.getD (a - addr) 0 else m a

/-! ## The host operating system -/

/-- An open host file (`*os.File`): the name it was opened under and the
descriptor's current position. -/
structure OSFile where
  name : List Char
  pos : Nat
deriving DecidableEq

/-- Terminal modes of the console. -/
inductive TermMode where
  | cooked
  | raw
deriving DecidableEq

/-- The host state the handlers act on. `disk` maps a name to the bytes of the
regular file of that name, `fds` is the table of open descriptors, `nextFd` the
next descriptor to hand out, `denied` the names the host refuses to open,
`statFails` the descriptors on which `Stat` reports an error, and `term` the
mode of the controlling terminal. -/
structure Host where
  disk : List Char → Option (List Nat)
  fds : Nat → Option OSFile
  nextFd : Nat
  denied : List Char → Bool
  statFails : Nat → Bool
  term : TermMode

/-- `os.OpenFile(name, os.O_CREATE|os.O_RDWR, 0644)`: creates the file when it is
absent and returns a fresh descriptor positioned at 0, or fails. -/
def Host.OpenFile (h : Host) (name : List Char) : Option (Nat × Host) :=
  if h.denied name then none
  else
    some (h.nextFd,
      { h with
        disk := fun n => if n = name then some ((h.disk name).getD []) else h.disk n
        fds := fun d => if d = h.nextFd then some { name := name, pos := 0 } else h.fds d
        nextFd := h.nextFd + 1 })

/-- `f.Stat()` followed by `fi.Size()`: the length of an open file, or `none`
when `Stat` returns an error. -/
def Host.Size (h : Host) (fd : Nat) : Option Nat :=
  match h.fds fd with
  | none => none
  | some f => if h.statFails fd then none else some ((h.disk f.name).getD []).length

/-- `f.Close()`: fails on a descriptor that is not open. -/
def Host.Close (h : Host) (fd : Nat) : Option Host :=
  match h.fds fd with
  | none => none
  | some _ => some { h with fds := fun d => if d = fd then none else h.fds d }

/-- `f.Seek(offset, io.SeekStart)`. -/
def Host.Seek (h : Host) (fd : Nat) (offset : Nat) : Option Host :=
  match h.fds fd with
  | none => none
  | some f =>
    some { h with fds := fun d => if d = fd then some { f with pos := offset } else h.fds d }

/-- The result of `f.Read(buf)`. -/
structure ReadResult where
  buf : List Nat
  n : Nat
  eof : Bool
  host : Host

/-- `f.Read(buf)` on a regular file: copies the bytes available at the current
position over the front of `buf`, at most `len(buf)` of them, and advances the
position; with nothing left to read it reports `io.EOF` and leaves `buf` alone. -/
def Host.Read (h : Host) (fd : Nat) (buf : List Nat) : Option ReadResult :=
  match h.fds fd with
  | none => none
  | some f =>
    let content := (h.disk f.name).getD []
    let got := (content.drop f.pos).take buf.length
    some
      { buf := got ++ buf.drop got.length
        n := got.length
        eof := decide (0 < buf.length ∧ got.length = 0)
        host :=
          { h with
            fds := fun d =>
              if d = fd then some { f with pos := f.pos + got.length } else h.fds d } }

/-- The bytes of a file after `data` is written at position `pos`: a gap
between the old end and `pos` reads as zero bytes. -/
def writeAt (content : List Nat) (pos : Nat) (data : List Nat) : List Nat :=
  (content ++ List.replicate (pos - content.length) 0).take pos ++ data
    ++ content.drop (pos + data.length)

/-- `f.Write(data)` on a regular file opened without `O_APPEND`: stores `data`
at the current position and advances it. An empty write changes nothing. -/
def Host.Write (h : Host) (fd : Nat) (data : List Nat) : Option Host :=
  match h.fds fd with
  | none => none
  | some f =>
    if data = [] then some h
    else
      let content := (h.disk f.name).getD []
      some
        { h with
          disk := fun n => if n = f.name then some (writeAt content f.pos data) else h.disk n
          fds := fun d =>
            if d = fd then some { f with pos := f.pos + data.length } else h.fds d }

/-! ## The emulator context -/

/-- An entry of the file-handle cache (`FileCache`): the host file name and the
open handle. -/
structure FileCache where
  name : List Char
  handle : Nat
deriving DecidableEq

/-- The fields of the `CPM` object the handlers use. `A` is
`cpm.CPU.States.AF.Hi`, `DE` is `cpm.CPU.States.DE.U16()`, `files` is the map
from FCB address to cache entry. -/
structure CPM where
  A : Nat
  DE : Nat
  Memory : Memory
  dma : Nat
  currentDrive : Nat
  userNumber : Nat
  files : Nat → Option FileCache
  findFirstResults : List (List Char)
  findOffset : Nat

/-- The Go errors a handler can return. -/
inductive Err where
  | openFailed
  | statFailed
  | closeNotOpen
  | closeFailed
  | seekFailed
  | readFailed
  | writeFailed
  | makeRawFailed
  | stdinReadFailed
  | restoreFailed
deriving DecidableEq

/-- What a handler leaves behind: the returned error and both states. -/
structure Outcome where
  err : Option Err
  cpm : CPM
  host : Host

/-! ## File management handlers -/

/-- The host file name built from an FCB: the name, then `.` and the type
unless the type is empty or three spaces. -/
def fileNameOf (f : FCB) : List Char :=
  let name := f.GetName
  let ext := f.GetType
  if ext ≠ [] ∧ ext ≠ [' ', ' ', ' '] then name ++ ['.'] ++ ext else name

/-- The record count both `SysCallFileOpen` and `SysCallMakeFile` store:
`fLen := uint8(fileSize / blkSize)`, capped at `maxRC`. -/
def recordCount (fileSize : Nat) : Nat :=
  let fLen := uint8 (fileSize / blkSize)
  if fLen > maxRC then maxRC else fLen

/-- `SysCallFileOpen` opens the file named by the FCB at `DE`. -/
def SysCallFileOpen (cpm : CPM) (host : Host) : Outcome :=
  let ptr := cpm.DE
  let xxx := GetRange cpm.Memory ptr 36
  let fcbPtr := FromBytes xxx
  let fileName := fileNameOf fcbPtr
  match host.OpenFile fileName with
  | none => { err := some Err.openFailed, cpm := cpm, host := host }
  | some (file, host1) =>
    let cpm1 : CPM :=
      { cpm with
        files := fun p =>
          if p = ptr then some { name := fileName, handle := file } else cpm.files p }
    match host1.Size file with
    | none => { err := some Err.statFailed, cpm := cpm1, host := host1 }
    | some fileSize =>
      let fcbPtr1 : FCB := { fcbPtr with RC := recordCount fileSize }
      { err := none
        cpm := { cpm1 with Memory := PutRange cpm1.Memory ptr fcbPtr1.AsBytes, A := 0x00 }
        host := host1 }

/-- `SysCallMakeFile` creates the file named by the FCB at `DE`. -/
def SysCallMakeFile (cpm : CPM) (host : Host) : Outcome :=
  let ptr := cpm.DE
  let xxx := GetRange cpm.Memory ptr 36
  let fcbPtr := FromBytes xxx
  let fileName := fileNameOf fcbPtr
  match host.OpenFile fileName with
  | none => { err := some Err.openFailed, cpm := cpm, host := host }
  | some (file, host1) =>
    match host1.Size file with
    | none => { err := some Err.statFailed, cpm := cpm, host := host1 }
    | some fileSize =>
      let fcbPtr1 : FCB := { fcbPtr with RC := recordCount fileSize }
      let cpm1 : CPM :=
        { cpm with
          files := fun p =>
            if p = ptr then some { name := fileName, handle := file } else cpm.files p }
      { err := none
        cpm := { cpm1 with Memory := PutRange cpm1.Memory ptr fcbPtr1.AsBytes, A := 0x00 }
        host := host1 }

/-- `SysCallFileClose` closes the file cached for the FCB address in `DE`. -/
def SysCallFileClose (cpm : CPM) (host : Host) : Outcome :=
  let ptr := cpm.DE
  match cpm.files ptr with
  | none => { err := some Err.closeNotOpen, cpm := cpm, host := host }
  | some obj =>
    match host.Close obj.handle with
    | none => { err := some Err.closeFailed, cpm := cpm, host := host }
    | some host1 =>
      { err := none
        cpm := { cpm with files := fun p => if p = ptr then none else cpm.files p, A := 0x00 }
        host := host1 }

/-! ## Building an FCB from a host file name -/

/-- Modelled from the spec: `fcb.FromString` (`FCBFromString` in the test), which
is not among the sources. It builds an FCB from a host file name. A one-letter
drive prefix `A`..`P` followed by `:` sets the drive (the test
`TestFCBFromString` fixes `b:` to 1 and `c:` to 2); the rest is upper-cased,
split on the last `.`, and the two parts are truncated and space-padded to 8
and 3 characters. -/
def FromString (str : List Char) : FCB :=
  let upper := str.map Char.toUpper
  let split : Nat × List Char :=
    match upper with
    | d :: ':' :: rest =>
      if 'A'.toNat ≤ d.toNat ∧ d.toNat ≤ 'P'.toNat then (d.toNat - 'A'.toNat, rest)
      else (0, upper)
    | _ => (0, upper)
  let body := split.2
  let afterDot := (body.reverse.takeWhile (fun c => c != '.')).reverse
  let hasDot := body.contains '.'
  let name := if hasDot then body.take (body.length - afterDot.length - 1) else body
  let ext := if hasDot then afterDot else []
  { Drive := split.1
    Name := ((name.map Char.toNat) ++ List.replicate 8 32).take 8
    Typ := ((ext.map Char.toNat) ++ List.replicate 3 32).take 3
    Ex := 0
    S1 := 0
    S2 := 0
    RC := 0
    Al := List.replicate 16 0
    Cr := 0
    R0 := 0
    R1 := 0
    R2 := 0 }

/-! ## Console and drive handlers -/

/-- What the console does during one `SysCallReadChar`: whether `term.MakeRaw`
succeeds, the byte `os.Stdin.Read` delivers (`none` when the read fails), and
whether `term.Restore` succeeds. -/
structure Console where
  makeRawOk : Bool
  stdinByte : Option Nat
  restoreOk : Bool

/-- `SysCallReadChar` reads a single character from the console. -/
def SysCallReadChar (con : Console) (cpm : CPM) (host : Host) : Outcome :=
  if ¬ con.makeRawOk then { err := some Err.makeRawFailed, cpm := cpm, host := host }
  else
    let oldState := host.term
    let host1 : Host := { host with term := TermMode.raw }
    match con.stdinByte with
    | none => { err := some Err.stdinReadFailed, cpm := cpm, host := host1 }
    | some b =>
      if ¬ con.restoreOk then { err := some Err.restoreFailed, cpm := cpm, host := host1 }
      else
        { err := none
          cpm := { cpm with A := b }
          host := { host1 with term := oldState } }

/-- `SysCallSetDMA` updates the address of the DMA area. -/
def SysCallSetDMA (cpm : CPM) (host : Host) : Outcome :=
  let addr := cpm.DE
  { err := none, cpm := { cpm with dma := addr }, host := host }

/-- `SysCallDriveAllReset` resets the drives. -/
def SysCallDriveAllReset (cpm : CPM) (host : Host) : Outcome :=
  { err := none
    cpm := { cpm with currentDrive := 1, userNumber := 0, A := 0x00 }
    host := host }

/-- `SysCallDriveSet` updates the current drive number. -/
def SysCallDriveSet (cpm : CPM) (host : Host) : Outcome :=
  { err := none
    cpm := { cpm with currentDrive := cpm.A &&& 0x0F, A := 0x00 }
    host := host }

/-- `SysCallDriveGet` returns the number of the active drive. -/
def SysCallDriveGet (cpm : CPM) (host : Host) : Outcome :=
  { err := none, cpm := { cpm with A := cpm.currentDrive }, host := host }

/-- The default drive of the driver (`main.go`: "The drive will default to A:,
or 0"). -/
def defaultDrive : Nat := 0

/-! ## Directory search -/

/-- One of the two loops of `SysCallFindFirst` over the runes of a field,
appending to `pattern`: a `?` appends `*` and leaves the loop, a space is
skipped, any other rune is appended. -/
def globLoop (pattern : List Char) : List Char → List Char
  | [] => pattern
  | c :: cs =>
    if c = '?' then pattern ++ ['*']
    else if c = ' ' then globLoop pattern cs
    else globLoop (pattern ++ [c]) cs

/-- The glob pattern `SysCallFindFirst` builds from the name and type of the
FCB. -/
def globPattern (name ext : List Char) : List Char :=
  let pattern := globLoop [] name
  let pattern1 := if ext ≠ [] ∧ ext ≠ [' ', ' ', ' '] then pattern ++ ['.'] else pattern
  globLoop pattern1 ext

/-- `SysCallFindFirst` finds the first file name matching the glob in the FCB
at `DE`. The host glob `filepath.Glob` is the argument `glob`; `none` is its
pattern error. -/
def SysCallFindFirst (glob : List Char → Option (List (List Char)))
    (cpm : CPM) (host : Host) : Outcome :=
  let ptr := cpm.DE
  let xxx := GetRange cpm.Memory ptr 36
  let cpm1 : CPM := { cpm with findFirstResults := [], findOffset := 0 }
  let fcbPtr := FromBytes xxx
  let pattern := globPattern fcbPtr.GetName fcbPtr.GetType
  match glob pattern with
  | none => { err := none, cpm := { cpm1 with A := 0xFF }, host := host }
  | some [] => { err := none, cpm := { cpm1 with A := 0xFF }, host := host }
  | some (first :: rest) =>
    let data := (FromString first).AsBytes
    { err := none
      cpm :=
        { cpm1 with
          findFirstResults := rest
          findOffset := 0
          Memory := PutRange cpm1.Memory cpm1.dma data
          A := 0x00 }
      host := host }

/-- `SysCallFindNext` finds the next file name of the running search. -/
def SysCallFindNext (cpm : CPM) (host : Host) : Outcome :=
  if cpm.findFirstResults.length = 0 ∨ cpm.findOffset ≥ cpm.findFirstResults.length then
    { err := none, cpm := { cpm with A := 0xFF }, host := host }
  else
    let res := cpm.findFirstResults.getD cpm.findOffset []
    let data := (FromString res).AsBytes
    { err := none
      cpm :=
        { cpm with
          findOffset := cpm.findOffset + 1
          Memory := PutRange cpm.Memory 0x80 data
          A := 0x00 }
      host := host }

/-! ## Sequential record I/O -/

/-- `SysCallRead` reads a record from the file of the FCB at `DE`. -/
def SysCallRead (cpm : CPM) (host : Host) : Outcome :=
  let ptr := cpm.DE
  let xxx := GetRange cpm.Memory ptr 36
  let fcbPtr := FromBytes xxx
  match cpm.files ptr with
  | none => { err := none, cpm := { cpm with A := 0xff }, host := host }
  | some obj =>
    let offset := fcbPtr.GetSequentialOffset
    match host.Seek obj.handle offset with
    | none => { err := some Err.seekFailed, cpm := cpm, host := host }
    | some host1 =>
      let data := List.replicate blkSize 0x1a
      match host1.Read obj.handle data with
      | none => { err := some Err.readFailed, cpm := cpm, host := host1 }
      | some r =>
        let mem1 := PutRange cpm.Memory cpm.dma r.buf
        let fcbPtr1 := fcbPtr.IncreaseSequentialOffset
        let mem2 := PutRange mem1 ptr fcbPtr1.AsBytes
        { err := none
          cpm := { cpm with Memory := mem2, A := if r.eof then 0x01 else 0x00 }
          host := r.host }

/-- `SysCallWrite` writes a record to the file of the FCB at `DE`. -/
def SysCallWrite (cpm : CPM) (host : Host) : Outcome :=
  let ptr := cpm.DE
  let xxx := GetRange cpm.Memory ptr 36
  let fcbPtr := FromBytes xxx
  match cpm.files ptr with
  | none => { err := none, cpm := { cpm with A := 0xff }, host := host }
  | some obj =>
    let offset := fcbPtr.GetSequentialOffset
    let data := GetRange cpm.Memory cpm.dma 128
    match host.Seek obj.handle offset with
    | none => { err := some Err.seekFailed, cpm := cpm, host := host }
    | some host1 =>
      match host1.Write obj.handle data with
      | none => { err := some Err.writeFailed, cpm := cpm, host := host1 }
      | some host2 =>
        let fcbPtr1 := fcbPtr.IncreaseSequentialOffset
        { err := none
          cpm := { cpm with Memory := PutRange cpm.Memory ptr fcbPtr1.AsBytes, A := 0x00 }
          host := host2 }

/-! ## Random record I/O -/

/-- The random record number of an FCB, `R2<<16 | R1<<8 | R0`. -/
def FCB.record (f : FCB) : Nat :=
  (f.R2 <<< 16) ||| (f.R1 <<< 8) ||| f.R0

/-- The closure `sysRead` of `SysCallReadRand`: it returns the result code,
the memory (changed only when a block was read) and the host. A failed `Stat`
leaves `fi` nil, so the following `fi.Size()` aborts the call; that is the
result `none`. -/
def sysRead (cpm : CPM) (host : Host) (f : Nat) (offset : Nat) :
    Option (Nat × Memory × Host) :=
  match host.Size f with
  | none => none
  | some fileSize =>
    if offset > fileSize then some (6, cpm.Memory, host)
    else
      match host.Seek f offset with
      | none => some (0xff, cpm.Memory, host)
      | some host1 =>
        let data := List.replicate blkSize 0x1a
        match host1.Read f data with
        | none => some (0xff, cpm.Memory, host1)
        | some r => some (0, PutRange cpm.Memory cpm.dma r.buf, r.host)

/-- `SysCallReadRand` reads a random block of the file of the FCB at `DE` into
the DMA area. -/
def SysCallReadRand (cpm : CPM) (host : Host) : Outcome :=
  let ptr := cpm.DE
  let xxx := GetRange cpm.Memory ptr 36
  let fcbPtr := FromBytes xxx
  match cpm.files ptr with
  | none => { err := none, cpm := { cpm with A := 0xff }, host := host }
  | some obj =>
    let record := fcbPtr.record
    let fpos := record * blkSize
    match sysRead cpm host obj.handle fpos with
    | none => { err := some Err.statFailed, cpm := cpm, host := host }
    | some (res, mem1, host1) =>
      { err := none
        cpm := { cpm with Memory := PutRange mem1 ptr fcbPtr.AsBytes, A := uint8 res }
        host := host1 }

/-- The padding count of `SysCallWriteRand`, `padding := fileSize - fpos`, a
signed 64-bit difference. -/
def writeRandPadding (fileSize fpos : Nat) : Int :=
  (fileSize : Int) - (fpos : Int)

/-- The padding loop of `SysCallWriteRand`: `padding` single zero bytes
written at the handle's current position. -/
def padLoop (host : Host) (f : Nat) : Nat → Option Host
  | 0 => some host
  | padding + 1 =>
    match host.Write f [0x00] with
    | none => none
    | some host1 => padLoop host1 f padding

/-- `SysCallWriteRand` writes the DMA area as a random block of the file of
the FCB at `DE`. -/
def SysCallWriteRand (cpm : CPM) (host : Host) : Outcome :=
  let ptr := cpm.DE
  let xxx := GetRange cpm.Memory ptr 36
  let fcbPtr := FromBytes xxx
  match cpm.files ptr with
  | none => { err := none, cpm := { cpm with A := 0xff }, host := host }
  | some obj =>
    let data := GetRange cpm.Memory cpm.dma 128
    let record := fcbPtr.record
    let fpos := record * blkSize
    match host.Size obj.handle with
    | none => { err := some Err.statFailed, cpm := cpm, host := host }
    | some fileSize =>
      let padding := writeRandPadding fileSize fpos
      match padLoop host obj.handle padding.toNat with
      | none => { err := some Err.writeFailed, cpm := cpm, host := host }
      | some host1 =>
        match host1.Seek obj.handle fpos with
        | none => { err := some Err.seekFailed, cpm := cpm, host := host1 }
        | some host2 =>
          match host2.Write obj.handle data with
          | none => { err := some Err.writeFailed, cpm := cpm, host := host2 }
          | some host3 =>
            let fcbPtr1 := fcbPtr.IncreaseSequentialOffset
            { err := none
              cpm := { cpm with Memory := PutRange cpm.Memory ptr fcbPtr1.AsBytes, A := 0x00 }
              host := host3 }

/-! ## Sequences of calls -/

/-- The state after `SysCallFindFirst` (given as `o`) and `k` further calls of
`SysCallFindNext`. -/
def findNexts (o : Outcome) : Nat → Outcome
  | 0 => o
  | k + 1 => SysCallFindNext (findNexts o k).cpm (findNexts o k).host

/-- A file-management call: the handler and the FCB address passed in `DE`. -/
inductive Call where
  | fileOpen (ptr : Nat)
  | makeFile (ptr : Nat)
  | fileClose (ptr : Nat)
deriving DecidableEq

/-- One call: `DE` is loaded with the FCB address and the handler runs. -/
def callOutcome (c : Call) (s : CPM × Host) : Outcome :=
  match c with
  | Call.fileOpen ptr => SysCallFileOpen { s.1 with DE := ptr } s.2
  | Call.makeFile ptr => SysCallMakeFile { s.1 with DE := ptr } s.2
  | Call.fileClose ptr => SysCallFileClose { s.1 with DE := ptr } s.2

/-- The states after one call; they are kept whether or not the handler
returns an error. -/
def callStep (c : Call) (s : CPM × Host) : CPM × Host :=
  ((callOutcome c s).cpm, (callOutcome c s).host)

/-- A sequence of calls, run in order. -/
def runCalls : List Call → CPM × Host → CPM × Host
  | [], s => s
  | c :: cs, s => runCalls cs (callStep c s)

/-- No Open or Make of the sequence is issued on an FCB address that has a
cache entry at that moment. -/
def noReuse : List Call → CPM × Host → Bool
  | [], _ => true
  | c :: cs, s =>
    (match c with
      | Call.fileOpen ptr => (s.1.files ptr).isNone
      | Call.makeFile ptr => (s.1.files ptr).isNone
      | Call.fileClose _ => true)
    && noReuse cs (callStep c s)

/-- No Make of the sequence returns the error of a failed `Stat`. -/
def makeStatOk : List Call → CPM × Host → Bool
  | [], _ => true
  | c :: cs, s =>
    (match c with
      | Call.makeFile _ => decide ((callOutcome c s).err ≠ some Err.statFailed)
      | _ => true)
    && makeStatOk cs (callStep c s)

/-! ## Specification-side definitions -/

/-- The per-field glob of the specification: the non-space characters that
precede the first `?` of the field, followed by a single `*` exactly when the
field contains a `?`. -/
def specGlobField (F : List Char) : List Char :=
  (F.takeWhile (fun c => c != '?')).filter (fun c => c != ' ')
    ++ (if '?' ∈ F then ['*'] else [])

/-- Every open host handle is held by exactly one cache entry. -/
def HandlesHeldOnce (files : Nat → Option FileCache) (fds : Nat → Option OSFile) : Prop :=
  ∀ fd f, fds fd = some f → ∃! ptr, ∃ fc, files ptr = some fc ∧ fc.handle = fd

/-- The invariant of the file-handle cache: every open handle is held by
exactly one entry, every cached handle is open, and no descriptor at or above
`nextFd` is in use. -/
def CacheInv (files : Nat → Option FileCache) (fds : Nat → Option OSFile)
    (nextFd : Nat) : Prop :=
  HandlesHeldOnce files fds ∧
  (∀ ptr fc, files ptr = some fc → fds fc.handle ≠ none) ∧
  (∀ fd, nextFd ≤ fd → fds fd = none)

/-! ## Concrete states -/

/-- The 36 bytes of an FCB on the current drive with the given name field, a
blank type, and the given current-record and random-record bytes. -/
def fcbBytes (name : List Nat) (cr r0 r1 r2 : Nat) : List Nat :=
  [0] ++ name ++ [32, 32, 32] ++ List.replicate 20 0 ++ [cr, r0, r1, r2]

/-- The name field of the file `F`. -/
def nameF : List Nat := [70, 32, 32, 32, 32, 32, 32, 32]

/-- An emulator whose memory is zero except for an FCB at `0x5C`, to which `DE`
points. -/
def demoCpm (name : List Nat) (cr r0 r1 r2 : Nat) (dma : Nat)
    (files : Nat → Option FileCache) : CPM :=
  { A := 0
    DE := 0x5C
    Memory := PutRange (fun _ => 0) 0x5C (fcbBytes name cr r0 r1 r2)
    dma := dma
    currentDrive := 0
    userNumber := 0
    files := files
    findFirstResults := []
    findOffset := 0 }

/-- A host with the single file `F` of the given content, open as descriptor 3. -/
def demoHost (content : List Nat) : Host :=
  { disk := fun n => if n = ['F'] then some content else none
    fds := fun d => if d = 3 then some { name := ['F'], pos := 0 } else none
    nextFd := 4
    denied := fun _ => false
    statFails := fun _ => false
    term := TermMode.cooked }

/-- A cache holding descriptor 3 for the FCB at `0x5C`. -/
def demoFiles : Nat → Option FileCache :=
  fun p => if p = 0x5C then some { name := ['F'], handle := 3 } else none

/-- A host with an empty disk and no open descriptor. -/
def bootHost : Host :=
  { disk := fun _ => none
    fds := fun _ => none
    nextFd := 0
    denied := fun _ => false
    statFails := fun _ => false
    term := TermMode.cooked }

/-- An emulator with the transfer buffer moved to `0x100` and one pending
search result, the file `B`. -/
def searchCpm : CPM :=
  { demoCpm nameF 0 0 0 0 0x100 (fun _ => none) with
    findFirstResults := [['B']]
    findOffset := 0 }

/-! # Theorems -/

/-! ## The FCB codec and guest memory -/

theorem fixed_length (n : Nat) (l : List Nat) : (fixed n l).length = n := by
  simp [fixed]

theorem AsBytes_length (f : FCB) : f.AsBytes.length = 36 := by
  simp [FCB.AsBytes, fixed_length]

theorem AsBytes_getD_RC (f : FCB) : f.AsBytes.getD 15 0 = f.RC := by
  unfold FCB.AsBytes
  have h8 := fixed_length 8 f.Name
  have h3 := fixed_length 3 f.Typ
  rw [List.append_assoc, List.append_assoc, List.getD_append_right _ _ _ _ (by simp [h8, h3])]
  simp [h8, h3]

theorem PutRange_inside (m : Memory) (addr : Nat) (data : List Nat) (i : Nat)
    (h : i < data.length) : PutRange m addr data (addr + i) = data.getD i 0 := by
  simp [PutRange, h]

theorem PutRange_outside (m : Memory) (addr : Nat) (data : List Nat) (a : Nat)
    (h : ¬ (addr ≤ a ∧ a < addr + data.length)) : PutRange m addr data a = m a := by
  simp only [PutRange, if_neg h]

theorem GetRange_length (m : Memory) (addr n : Nat) : (GetRange m addr n).length = n := by
  induction n generalizing addr with
  | zero => rfl
  | succ n ih => simp [GetRange, ih]

theorem GetRange_getD (m : Memory) (addr n i : Nat) (h : i < n) :
    (GetRange m addr n).getD i 0 = m (addr + i) := by
  induction n generalizing addr i with
  | zero => omega
  | succ n ih =>
    cases i with
    | zero => simp [GetRange]
    | succ i =>
      have := ih (addr + 1) i (by omega)
      simp only [GetRange, List.getD_cons_succ, this]
      congr 1
      omega

theorem PutRange_GetRange (m : Memory) (addr n : Nat) :
    PutRange m addr (GetRange m addr n) = m := by
  funext a
  unfold PutRange
  split
  · rename_i h
    rw [GetRange_length] at h
    rw [GetRange_getD m addr n (a - addr) (by omega)]
    congr 1
    omega
  · rfl

theorem AsBytes_FromBytes_GetRange (m : Memory) (addr : Nat) :
    (FromBytes (GetRange m addr 36)).AsBytes = GetRange m addr 36 := by
  rfl

theorem GetRange_ne_nil (m : Memory) (addr n : Nat) : GetRange m addr (n + 1) ≠ [] := by
  simp [GetRange]

theorem writeAt_beyond (content data : List Nat) (pos : Nat) (h : content.length ≤ pos) :
    writeAt content pos data
      = content ++ List.replicate (pos - content.length) 0 ++ data := by
  unfold writeAt
  rw [List.take_of_length_le (by simp; omega), List.drop_of_length_le (by omega)]
  simp

theorem FromBytes_GetRange_RC (m : Memory) (addr : Nat) :
    (FromBytes (GetRange m addr 36)).RC = m (addr + 15) := by
  rfl

/-! ## Record count (C1) -/

theorem SysCallFileOpen_RC (cpm : CPM) (host : Host)
    (hd : host.denied (fileNameOf (FromBytes (GetRange cpm.Memory cpm.DE 36))) = false)
    (hstat : host.statFails host.nextFd = false) :
    (SysCallFileOpen cpm host).err = none ∧
    (FromBytes (GetRange (SysCallFileOpen cpm host).cpm.Memory cpm.DE 36)).RC =
      recordCount
        ((host.disk (fileNameOf (FromBytes (GetRange cpm.Memory cpm.DE 36)))).getD []).length := by
  rw [FromBytes_GetRange_RC]
  simp only [SysCallFileOpen, Host.OpenFile, hd, Host.Size]
  simp only [Bool.false_eq_true, if_false, if_true, Option.getD_some, true_and, hstat]
  rw [PutRange_inside _ _ _ _ (by rw [AsBytes_length]; decide), AsBytes_getD_RC]

theorem SysCallMakeFile_RC (cpm : CPM) (host : Host)
    (hd : host.denied (fileNameOf (FromBytes (GetRange cpm.Memory cpm.DE 36))) = false)
    (hstat : host.statFails host.nextFd = false) :
    (SysCallMakeFile cpm host).err = none ∧
    (FromBytes (GetRange (SysCallMakeFile cpm host).cpm.Memory cpm.DE 36)).RC =
      recordCount
        ((host.disk (fileNameOf (FromBytes (GetRange cpm.Memory cpm.DE 36)))).getD []).length := by
  rw [FromBytes_GetRange_RC]
  simp only [SysCallMakeFile, Host.OpenFile, hd, Host.Size]
  simp only [Bool.false_eq_true, if_false, if_true, Option.getD_some, true_and, hstat]
  rw [PutRange_inside _ _ _ _ (by rw [AsBytes_length]; decide), AsBytes_getD_RC]

theorem recordCount_eq_min (s : Nat) (h : s / 128 < 256) :
    recordCount s = min 128 (s / 128) := by
  simp only [recordCount, uint8, blkSize, maxRC, Nat.mod_eq_of_lt h]
  split_ifs <;> omega

theorem demo_fileName (cr r0 r1 r2 dma : Nat) (files : Nat → Option FileCache) :
    fileNameOf (FromBytes (GetRange (demoCpm nameF cr r0 r1 r2 dma files).Memory
      (demoCpm nameF cr r0 r1 r2 dma files).DE 36)) = ['F'] := by
  rfl

theorem recordCount_demo (content : List Nat) (n : Nat) (hlen : content.length = n) :
    ((demoHost content).disk ['F']).map List.length = some n ∧
    (SysCallFileOpen (demoCpm nameF 0 0 0 0 0x80 (fun _ => none)) (demoHost content)).err
      = none ∧
    (FromBytes (GetRange (SysCallFileOpen (demoCpm nameF 0 0 0 0 0x80 (fun _ => none))
      (demoHost content)).cpm.Memory 0x5C 36)).RC = recordCount n ∧
    (SysCallMakeFile (demoCpm nameF 0 0 0 0 0x80 (fun _ => none)) (demoHost content)).err
      = none ∧
    (FromBytes (GetRange (SysCallMakeFile (demoCpm nameF 0 0 0 0 0x80 (fun _ => none))
      (demoHost content)).cpm.Memory 0x5C 36)).RC = recordCount n := by
  have hsize : (((demoHost content).disk
      (fileNameOf (FromBytes (GetRange (demoCpm nameF 0 0 0 0 0x80 (fun _ => none)).Memory
        (demoCpm nameF 0 0 0 0 0x80 (fun _ => none)).DE 36)))).getD []).length = n := by
    rw [demo_fileName]
    simp [demoHost, hlen]
  have hopen := SysCallFileOpen_RC (demoCpm nameF 0 0 0 0 0x80 (fun _ => none))
    (demoHost content) rfl rfl
  have hmake := SysCallMakeFile_RC (demoCpm nameF 0 0 0 0 0x80 (fun _ => none))
    (demoHost content) rfl rfl
  rw [hsize] at hopen hmake
  exact ⟨by simp [demoHost, hlen], hopen.1, hopen.2, hmake.1, hmake.2⟩

/-- C1 (code defect): with a host file `F` of 128*256 = 32768 bytes, both
`SysCallFileOpen` and `SysCallMakeFile` succeed and store the record count 0 in
the FCB, although `min(128, floor(32768/128))` is 128: the block count is
narrowed to `uint8` before it is compared with `maxRC`. -/
theorem recordCount_wraps_at_32768 :
    ((demoHost (List.replicate 32768 0)).disk ['F']).map List.length = some 32768 ∧
    (SysCallFileOpen (demoCpm nameF 0 0 0 0 0x80 (fun _ => none))
      (demoHost (List.replicate 32768 0))).err = none ∧
    (FromBytes (GetRange (SysCallFileOpen (demoCpm nameF 0 0 0 0 0x80 (fun _ => none))
      (demoHost (List.replicate 32768 0))).cpm.Memory 0x5C 36)).RC = 0 ∧
    (SysCallMakeFile (demoCpm nameF 0 0 0 0 0x80 (fun _ => none))
      (demoHost (List.replicate 32768 0))).err = none ∧
    (FromBytes (GetRange (SysCallMakeFile (demoCpm nameF 0 0 0 0 0x80 (fun _ => none))
      (demoHost (List.replicate 32768 0))).cpm.Memory 0x5C 36)).RC = 0 ∧
    min 128 (32768 / 128) = 128 :=
  have h := recordCount_demo (List.replicate 32768 0) 32768 (List.length_replicate _ _)
  ⟨h.1, h.2.1, h.2.2.1, h.2.2.2.1, h.2.2.2.2, by decide⟩

/-! ## Sequential read (C2) -/

/-- C2: for an open file with bytes `content` and an FCB whose sequential offset
is `o = currentRecord * 128`, `SysCallRead` returns without error and copies to
the transfer buffer at `dma` exactly 128 bytes: the file bytes from `o` up to
end-of-file (at most 128 of them) followed by `0x1A` pad bytes, before the FCB is
written back at `DE`. When `o` is at or past end-of-file, `A` is `0x01` and the
block is all `0x1A`; otherwise `A` is `0x00`. -/
theorem SysCallRead_block (cpm : CPM) (host : Host) (obj : FileCache) (f : OSFile)
    (hopen : cpm.files cpm.DE = some obj) (hfd : host.fds obj.handle = some f) :
    let fcbPtr := FromBytes (GetRange cpm.Memory cpm.DE 36)
    let content := (host.disk f.name).getD []
    let o := fcbPtr.Cr * 128
    let got := (content.drop o).take 128
    let block := got ++ List.replicate (128 - got.length) 0x1A
    let out := SysCallRead cpm host
    out.err = none ∧ block.length = 128 ∧
    out.cpm.Memory =
      PutRange (PutRange cpm.Memory cpm.dma block) cpm.DE fcbPtr.IncreaseSequentialOffset.AsBytes ∧
    (∀ i, i < 128 → ¬ (cpm.DE ≤ cpm.dma + i ∧ cpm.dma + i < cpm.DE + 36) →
      out.cpm.Memory (cpm.dma + i) = block.getD i 0) ∧
    (content.length ≤ o → out.cpm.A = 0x01 ∧ block = List.replicate 128 0x1A) ∧
    (o < content.length → out.cpm.A = 0x00) := by
  intro fcbPtr content o got block out
  have hlen : got.length = min 128 (content.length - o) := by
    simp [got]
  have hblock : block.length = 128 := by
    simp only [block, List.length_append, List.length_replicate]
    omega
  have hout : out = { err := none
                      cpm := { cpm with
                        Memory := PutRange (PutRange cpm.Memory cpm.dma block) cpm.DE
                          fcbPtr.IncreaseSequentialOffset.AsBytes
                        A := if got.length = 0 then 0x01 else 0x00 }
                      host := { host with
                        fds := fun d => if d = obj.handle then some { f with pos := o + got.length }
                          else (if d = obj.handle then some { f with pos := o } else host.fds d) } } := by
    simp only [out, SysCallRead, hopen, Host.Seek, hfd, Host.Read, if_true, blkSize,
      FCB.GetSequentialOffset, List.length_replicate, List.drop_replicate]
    simp [fcbPtr, got, content, o, block]
  refine ⟨by rw [hout], hblock, by rw [hout], ?_, ?_, ?_⟩
  · intro i hi hno
    rw [hout]
    show PutRange (PutRange cpm.Memory cpm.dma block) cpm.DE _ (cpm.dma + i) = _
    rw [PutRange_outside _ _ _ _ (by rw [AsBytes_length]; exact hno)]
    exact PutRange_inside _ _ _ _ (by omega)
  · intro h
    have h0 : got.length = 0 := by omega
    refine ⟨by rw [hout]; simp [h0], ?_⟩
    have : got = [] := List.length_eq_zero.mp h0
    simp [block, this]
  · intro h
    have h0 : got.length ≠ 0 := by omega
    rw [hout]; simp [h0]

/-- C2 at a concrete input: the file `F` holds three bytes and the FCB has
current record 0, so the read starts at offset 0, short of the end. -/
theorem SysCallRead_block_witness :
    (demoCpm nameF 0 0 0 0 0x80 demoFiles).files (demoCpm nameF 0 0 0 0 0x80 demoFiles).DE
      = some { name := ['F'], handle := 3 } ∧
    (demoHost ([7, 7, 7])).fds 3 = some { name := ['F'], pos := 0 } ∧
    (SysCallRead (demoCpm nameF 0 0 0 0 0x80 demoFiles) (demoHost ([7, 7, 7]))).err
      = none ∧
    (SysCallRead (demoCpm nameF 0 0 0 0 0x80 demoFiles)
      (demoHost ([7, 7, 7]))).cpm.A = 0x00 :=
  ⟨rfl, rfl,
    (SysCallRead_block (demoCpm nameF 0 0 0 0 0x80 demoFiles) (demoHost ([7, 7, 7]))
      { name := ['F'], handle := 3 } { name := ['F'], pos := 0 } rfl rfl).1,
    (SysCallRead_block (demoCpm nameF 0 0 0 0 0x80 demoFiles) (demoHost ([7, 7, 7]))
      { name := ['F'], handle := 3 } { name := ['F'], pos := 0 } rfl rfl).2.2.2.2.2
      (by decide)⟩

/-! ## Random write beyond the end of the file (C3) -/

theorem padLoop_skipped (host : Host) (fd fileSize fpos : Nat) (h : fileSize ≤ fpos) :
    padLoop host fd (writeRandPadding fileSize fpos).toNat = some host := by
  have h0 : (writeRandPadding fileSize fpos).toNat = 0 := by
    unfold writeRandPadding
    omega
  rw [h0]
  rfl

/-- The observable result of a random write beyond the end of the file, on the
host model: for an open file with bytes `content` (length `s`), a `Stat` that
succeeds and a random record number `r` with `s < r*128`, `SysCallWriteRand`
returns without error with `A = 0x00`, and the file then reads as the old bytes,
zero bytes from `s` up to `r*128`, and the 128 bytes of the transfer buffer. The
zero bytes are those of the host write past the end of the file. -/
theorem SysCallWriteRand_beyond (cpm : CPM) (host : Host) (obj : FileCache) (f : OSFile)
    (hopen : cpm.files cpm.DE = some obj) (hfd : host.fds obj.handle = some f)
    (hstat : host.statFails obj.handle = false)
    (hbeyond : ((host.disk f.name).getD []).length
      < (FromBytes (GetRange cpm.Memory cpm.DE 36)).record * 128) :
    let content := (host.disk f.name).getD []
    let r := (FromBytes (GetRange cpm.Memory cpm.DE 36)).record
    let data := GetRange cpm.Memory cpm.dma 128
    let out := SysCallWriteRand cpm host
    out.err = none ∧ out.cpm.A = 0x00 ∧
    out.host.disk f.name
      = some (content ++ List.replicate (r * 128 - content.length) 0 ++ data) ∧
    (content ++ List.replicate (r * 128 - content.length) 0 ++ data).length = r * 128 + 128 := by
  intro content r data out
  have hpad := padLoop_skipped host obj.handle ((host.disk f.name).getD []).length
    ((FromBytes (GetRange cpm.Memory cpm.DE 36)).record * blkSize)
    (by simp only [blkSize]; omega)
  have hdata : data ≠ [] := GetRange_ne_nil _ _ 127
  have hout : out.err = none ∧ out.cpm.A = 0x00 ∧
      out.host.disk f.name = some (writeAt content (r * 128) data) := by
    simp only [out, SysCallWriteRand, hopen, Host.Size, hfd, hstat, Bool.false_eq_true, if_false]
    rw [hpad]
    simp only [Host.Seek, hfd, Host.Write, if_true, blkSize]
    simp [hdata, data, content, r]
  refine ⟨hout.1, hout.2.1, ?_, ?_⟩
  · rw [hout.2.2, writeAt_beyond _ _ _ (Nat.le_of_lt hbeyond)]
  · simp only [List.length_append, List.length_replicate, data, GetRange_length]
    have : content.length < r * 128 := hbeyond
    omega

/-- The observable result at a concrete input: the file `F` holds three bytes
and the FCB names random record 2, byte offset 256. -/
theorem SysCallWriteRand_beyond_witness :
    (demoCpm nameF 0 2 0 0 0x80 demoFiles).files (demoCpm nameF 0 2 0 0 0x80 demoFiles).DE
      = some { name := ['F'], handle := 3 } ∧
    (demoHost [1, 2, 3]).fds 3 = some { name := ['F'], pos := 0 } ∧
    (SysCallWriteRand (demoCpm nameF 0 2 0 0 0x80 demoFiles) (demoHost [1, 2, 3])).err = none ∧
    (SysCallWriteRand (demoCpm nameF 0 2 0 0 0x80 demoFiles) (demoHost [1, 2, 3])).cpm.A
      = 0x00 ∧
    (SysCallWriteRand (demoCpm nameF 0 2 0 0 0x80 demoFiles) (demoHost [1, 2, 3])).host.disk ['F']
      = some ([1, 2, 3] ++ List.replicate 253 0
          ++ GetRange (demoCpm nameF 0 2 0 0 0x80 demoFiles).Memory 0x80 128) :=
  have h := SysCallWriteRand_beyond (demoCpm nameF 0 2 0 0 0x80 demoFiles) (demoHost [1, 2, 3])
    { name := ['F'], handle := 3 } { name := ['F'], pos := 0 } rfl rfl rfl (by decide)
  ⟨rfl, rfl, h.1, h.2.1, h.2.2.1⟩

/-- C3 (code defect): the file `F` holds three bytes and is open; the FCB names
random record 2, so the byte offset 256 lies beyond the file. The padding count
`fileSize - fpos` is `3 - 256 = -253`, so the padding loop of `SysCallWriteRand`
does not run: it leaves the host as it was, the file is still three bytes long
when the record is written at offset 256, and the handler itself writes no zero
byte into `[3, 256)`. The call returns without error with `A = 0x00`. -/
theorem SysCallWriteRand_beyond_skips_padding :
    (demoCpm nameF 0 2 0 0 0x80 demoFiles).files (demoCpm nameF 0 2 0 0 0x80 demoFiles).DE
      = some { name := ['F'], handle := 3 } ∧
    (demoHost [1, 2, 3]).fds 3 = some { name := ['F'], pos := 0 } ∧
    (demoHost [1, 2, 3]).Size 3 = some 3 ∧
    (FromBytes (GetRange (demoCpm nameF 0 2 0 0 0x80 demoFiles).Memory 0x5C 36)).record * blkSize
      = 256 ∧
    writeRandPadding 3 256 = -253 ∧
    (∀ host1, padLoop (demoHost [1, 2, 3]) 3 (writeRandPadding 3 256).toNat = some host1 →
      host1.Size 3 = some 3 ∧ host1.disk ['F'] = some [1, 2, 3] ∧
      host1.fds 3 = some { name := ['F'], pos := 0 }) ∧
    (SysCallWriteRand (demoCpm nameF 0 2 0 0 0x80 demoFiles) (demoHost [1, 2, 3])).err = none ∧
    (SysCallWriteRand (demoCpm nameF 0 2 0 0 0x80 demoFiles) (demoHost [1, 2, 3])).cpm.A
      = 0x00 := by
  refine ⟨rfl, rfl, rfl, by decide, by decide, ?_, by decide, by decide⟩
  intro host1 h1
  rw [padLoop_skipped _ _ _ _ (by decide)] at h1
  cases h1
  exact ⟨rfl, rfl, rfl⟩

/-! ## Random read at and beyond the end of the file (C4) -/

/-- The part of the random-read claim the code meets: for an open file of
length `s`, a `Stat` that succeeds and a random record number
`r = R0 | R1<<8 | R2<<16` whose byte offset `r*128` is strictly beyond the file
length (`r*128 > s`), `SysCallReadRand` returns without error, signals `0x06` in
`A` without reading, and leaves guest memory, hence the transfer buffer,
unchanged; the host file and its descriptor are untouched. -/
theorem SysCallReadRand_beyond (cpm : CPM) (host : Host) (obj : FileCache) (f : OSFile)
    (hopen : cpm.files cpm.DE = some obj) (hfd : host.fds obj.handle = some f)
    (hstat : host.statFails obj.handle = false)
    (hbeyond : ((host.disk f.name).getD []).length
      < (FromBytes (GetRange cpm.Memory cpm.DE 36)).record * 128) :
    let out := SysCallReadRand cpm host
    out.err = none ∧ out.cpm.A = 0x06 ∧ out.cpm.Memory = cpm.Memory ∧
    (∀ i, i < 128 → out.cpm.Memory (cpm.dma + i) = cpm.Memory (cpm.dma + i)) ∧
    out.host.disk = host.disk ∧ out.host.fds = host.fds := by
  intro out
  have hout : out = { err := none, cpm := { cpm with A := 0x06 }, host := host } := by
    simp only [out, SysCallReadRand, hopen, sysRead, Host.Size, hfd, hstat, Bool.false_eq_true,
      if_false, blkSize, gt_iff_lt, hbeyond, if_true, AsBytes_FromBytes_GetRange,
      PutRange_GetRange]
    rfl
  rw [hout]
  simp

/-- The strictly-beyond case at a concrete input: the file `F` holds three bytes
and the FCB names random record 2, byte offset 256. -/
theorem SysCallReadRand_beyond_witness :
    (demoCpm nameF 0 2 0 0 0x80 demoFiles).files (demoCpm nameF 0 2 0 0 0x80 demoFiles).DE
      = some { name := ['F'], handle := 3 } ∧
    (demoHost [1, 2, 3]).fds 3 = some { name := ['F'], pos := 0 } ∧
    (SysCallReadRand (demoCpm nameF 0 2 0 0 0x80 demoFiles) (demoHost [1, 2, 3])).cpm.A
      = 0x06 ∧
    (SysCallReadRand (demoCpm nameF 0 2 0 0 0x80 demoFiles) (demoHost [1, 2, 3])).cpm.Memory
      = (demoCpm nameF 0 2 0 0 0x80 demoFiles).Memory :=
  have h := SysCallReadRand_beyond (demoCpm nameF 0 2 0 0 0x80 demoFiles) (demoHost [1, 2, 3])
    { name := ['F'], handle := 3 } { name := ['F'], pos := 0 } rfl rfl rfl (by decide)
  ⟨rfl, rfl, h.2.1, h.2.2.1⟩

set_option maxRecDepth 100000 in
/-- C4 (code defect): the file `F` is empty and open, the FCB names random
record 0, so the byte offset 0 is at the file length (`0 >= 0`) and there is
nothing to read; yet `SysCallReadRand` signals `0x00` (documented in `sysRead`
as "read something successfully"), not `0x06`, and overwrites the transfer
buffer at `0x80`, which held 0, with the pad byte `0x1A`. The sequential
`SysCallRead` signals `0x01` on the same file. -/
theorem SysCallReadRand_at_end :
    (demoCpm nameF 0 0 0 0 0x80 demoFiles).files (demoCpm nameF 0 0 0 0 0x80 demoFiles).DE
      = some { name := ['F'], handle := 3 } ∧
    (demoHost []).fds 3 = some { name := ['F'], pos := 0 } ∧
    (FromBytes (GetRange (demoCpm nameF 0 0 0 0 0x80 demoFiles).Memory 0x5C 36)).record * 128
      ≥ (((demoHost []).disk ['F']).getD []).length ∧
    (SysCallReadRand (demoCpm nameF 0 0 0 0 0x80 demoFiles) (demoHost [])).cpm.A = 0x00 ∧
    (demoCpm nameF 0 0 0 0 0x80 demoFiles).Memory 0x80 = 0 ∧
    (SysCallReadRand (demoCpm nameF 0 0 0 0 0x80 demoFiles) (demoHost [])).cpm.Memory 0x80
      = 0x1A ∧
    (SysCallRead (demoCpm nameF 0 0 0 0 0x80 demoFiles) (demoHost [])).cpm.A = 0x01 :=
  ⟨rfl, rfl, by decide, by decide, rfl, by decide, by decide⟩

/-! ## Directory search (C5, C6, C7) -/

theorem SysCallFindNext_pending (c : CPM) (h : Host)
    (hlt : c.findOffset < c.findFirstResults.length) :
    SysCallFindNext c h =
      { err := none
        cpm := { c with
          findOffset := c.findOffset + 1
          Memory := PutRange c.Memory 0x80 (FromString (c.findFirstResults.getD c.findOffset [])).AsBytes
          A := 0x00 }
        host := h } := by
  unfold SysCallFindNext
  rw [if_neg (by omega)]

theorem SysCallFindNext_exhausted (c : CPM) (h : Host)
    (hge : c.findFirstResults.length ≤ c.findOffset) :
    SysCallFindNext c h = { err := none, cpm := { c with A := 0xFF }, host := h } := by
  unfold SysCallFindNext
  rw [if_pos (by omega)]

theorem findNexts_cursor (o : Outcome) (k : Nat) (h0 : o.cpm.findOffset = 0) :
    (findNexts o k).cpm.findFirstResults = o.cpm.findFirstResults ∧
    (findNexts o k).cpm.findOffset = min k o.cpm.findFirstResults.length := by
  induction k with
  | zero => simp [findNexts, h0]
  | succ k ih =>
    obtain ⟨hres, hoff⟩ := ih
    by_cases hlt : k < o.cpm.findFirstResults.length
    · have hp : (findNexts o k).cpm.findOffset < (findNexts o k).cpm.findFirstResults.length := by
        rw [hres, hoff]; omega
      simp only [findNexts, SysCallFindNext_pending _ _ hp, hres, hoff, true_and]
      omega
    · have hp : (findNexts o k).cpm.findFirstResults.length ≤ (findNexts o k).cpm.findOffset := by
        rw [hres, hoff]; omega
      simp only [findNexts, SysCallFindNext_exhausted _ _ hp, hres, hoff, true_and]
      omega

/-- C5: let the host glob return `found = m0..m(n-1)` for the pattern of the FCB
(the list is used in the order the glob gives it). If `n = 0`, `SysCallFindFirst`
signals `0xFF` and leaves the search state empty (and memory untouched). If
`n >= 1` it signals `0x00` and writes the FCB built from `m0` at the transfer
buffer; the `k`-th following `SysCallFindNext`, `1 <= k <= n-1`, signals `0x00`
and writes the FCB built from `m_k` (at address `0x80`); every later
`SysCallFindNext` signals `0xFF`. -/
theorem SysCallFind_sequence (glob : List Char → Option (List (List Char)))
    (cpm : CPM) (host : Host) (found : List (List Char))
    (hglob : glob (globPattern (FromBytes (GetRange cpm.Memory cpm.DE 36)).GetName
      (FromBytes (GetRange cpm.Memory cpm.DE 36)).GetType) = some found) :
    let first := SysCallFindFirst glob cpm host
    let n := found.length
    (n = 0 → first.cpm.A = 0xFF ∧ first.cpm.findFirstResults = [] ∧ first.cpm.findOffset = 0 ∧
      first.cpm.Memory = cpm.Memory) ∧
    (1 ≤ n →
      first.cpm.A = 0x00 ∧
      first.cpm.Memory = PutRange cpm.Memory cpm.dma (FromString (found.getD 0 [])).AsBytes ∧
      (∀ k, 1 ≤ k → k ≤ n - 1 →
        (findNexts first k).cpm.A = 0x00 ∧
        (findNexts first k).cpm.Memory =
          PutRange (findNexts first (k - 1)).cpm.Memory 0x80 (FromString (found.getD k [])).AsBytes) ∧
      (∀ k, n - 1 < k → (findNexts first k).cpm.A = 0xFF)) := by
  intro first n
  cases hm : found with
  | nil =>
    subst hm
    refine ⟨fun _ => ?_, fun h => ?_⟩
    · simp [first, SysCallFindFirst, hglob]
    · simp [n] at h
  | cons m0 rest =>
    subst hm
    have hfirst : first = { err := none
                            cpm := { cpm with
                              findFirstResults := rest
                              findOffset := 0
                              Memory := PutRange cpm.Memory cpm.dma (FromString m0).AsBytes
                              A := 0x00 }
                            host := host } := by
      simp [first, SysCallFindFirst, hglob]
    have hres : first.cpm.findFirstResults = rest := by rw [hfirst]
    have hoff : first.cpm.findOffset = 0 := by rw [hfirst]
    refine ⟨fun h => by simp [n] at h, fun _ => ⟨by rw [hfirst], by rw [hfirst]; rfl, ?_, ?_⟩⟩
    · intro k hk1 hkn
      obtain ⟨j, rfl⟩ : ∃ j, k = j + 1 := ⟨k - 1, by omega⟩
      have hn : n = rest.length + 1 := by simp [n]
      obtain ⟨hr, ho⟩ := findNexts_cursor first j hoff
      have hp : (findNexts first j).cpm.findOffset < (findNexts first j).cpm.findFirstResults.length := by
        rw [hr, ho, hres]; omega
      have hoj : (findNexts first j).cpm.findOffset = j := by rw [ho, hres]; omega
      simp only [findNexts, SysCallFindNext_pending _ _ hp, hr, hres, hoj, Nat.add_sub_cancel,
        List.getD_cons_succ, true_and]
    · intro k hk
      have hn : n = rest.length + 1 := by simp [n]
      obtain ⟨j, rfl⟩ : ∃ j, k = j + 1 := ⟨k - 1, by omega⟩
      obtain ⟨hr, ho⟩ := findNexts_cursor first j hoff
      have hp : (findNexts first j).cpm.findFirstResults.length ≤ (findNexts first j).cpm.findOffset := by
        rw [hr, ho, hres]; omega
      simp only [findNexts, SysCallFindNext_exhausted _ _ hp]

/-- C5 at a concrete input: the glob returns the two names `A` and `B`. -/
theorem SysCallFind_sequence_witness :
    (SysCallFindFirst (fun _ => some [['A'], ['B']]) (demoCpm nameF 0 0 0 0 0x80 demoFiles)
      (demoHost [])).cpm.A = 0x00 ∧
    (findNexts (SysCallFindFirst (fun _ => some [['A'], ['B']])
      (demoCpm nameF 0 0 0 0 0x80 demoFiles) (demoHost [])) 1).cpm.A = 0x00 ∧
    (findNexts (SysCallFindFirst (fun _ => some [['A'], ['B']])
      (demoCpm nameF 0 0 0 0 0x80 demoFiles) (demoHost [])) 2).cpm.A = 0xFF :=
  have h := (SysCallFind_sequence (fun _ => some [['A'], ['B']])
    (demoCpm nameF 0 0 0 0 0x80 demoFiles) (demoHost []) [['A'], ['B']] rfl).2 (by decide)
  ⟨h.1, (h.2.2.1 1 (by decide) (by decide)).1, h.2.2.2 2 (by decide)⟩

set_option maxRecDepth 100000 in
/-- C6 (code defect): with the transfer buffer set to `0x100` and the file `B`
pending at the cursor, `SysCallFindNext` signals `0x00` but stores the FCB at
the fixed address `0x80` (its second byte, the first name character, becomes
66) and leaves the transfer buffer at `0x100` as it was, whereas
`SysCallFindFirst` stores the FCB of its first match at the transfer buffer. -/
theorem SysCallFindNext_ignores_dma :
    searchCpm.dma = 0x100 ∧
    searchCpm.findFirstResults.getD searchCpm.findOffset [] = ['B'] ∧
    (FromString ['B']).AsBytes.getD 1 0 = 66 ∧
    (SysCallFindNext searchCpm bootHost).cpm.A = 0x00 ∧
    searchCpm.Memory (0x100 + 1) = 0 ∧
    (SysCallFindNext searchCpm bootHost).cpm.Memory (0x100 + 1) = 0 ∧
    (SysCallFindNext searchCpm bootHost).cpm.Memory (0x80 + 1) = 66 ∧
    (SysCallFindFirst (fun _ => some [['B']]) searchCpm bootHost).cpm.Memory (0x100 + 1)
      = 66 := by
  refine ⟨rfl, rfl, ?_, ?_, ?_, ?_, ?_, ?_⟩ <;> decide

theorem globLoop_eq (pattern F : List Char) :
    globLoop pattern F = pattern ++ specGlobField F := by
  induction F generalizing pattern with
  | nil => simp [globLoop, specGlobField]
  | cons c cs ih =>
    unfold globLoop
    by_cases hq : c = '?'
    · subst hq
      simp [specGlobField, List.takeWhile]
    · rw [if_neg hq]
      by_cases hs : c = ' '
      · subst hs
        rw [if_pos rfl, ih]
        simp [specGlobField, List.takeWhile, List.filter]
      · rw [if_neg hs, ih]
        have hq2 : ¬ ('?' = c) := fun h => hq h.symm
        have hb : (c != '?') = true := by simp [hq]
        have hb2 : (c != ' ') = true := by simp [hs]
        simp [specGlobField, List.takeWhile_cons, List.filter_cons, hb, hb2, hq2]

theorem specGlobField_no_question (F : List Char) : '?' ∉ specGlobField F := by
  unfold specGlobField
  intro h
  rcases List.mem_append.mp h with h1 | h2
  · have h3 := List.mem_takeWhile_imp (List.mem_filter.mp h1).1
    simp at h3
  · split at h2
    · simp at h2
    · simp at h2

theorem specGlobField_count_star (F : List Char) :
    (specGlobField F).count '*' ≤ F.count '*' + 1 := by
  unfold specGlobField
  rw [List.count_append]
  have h1 : ((F.takeWhile (fun c => c != '?')).filter (fun c => c != ' ')).count '*'
      ≤ F.count '*' :=
    ((List.filter_sublist _).trans (List.takeWhile_sublist _)).count_le _
  have h2 : (if '?' ∈ F then ['*'] else []).count '*' ≤ 1 := by
    split <;> simp
  omega

theorem specGlobField_cut (pre post : List Char) (h : '?' ∉ pre) :
    specGlobField (pre ++ '?' :: post) = pre.filter (fun c => c != ' ') ++ ['*'] := by
  unfold specGlobField
  have h1 : (pre ++ '?' :: post).takeWhile (fun c => c != '?') = pre := by
    induction pre with
    | nil => simp [List.takeWhile]
    | cons c cs ih =>
      have hc : c ≠ '?' := fun hc => h (by simp [hc])
      have hcb : (c != '?') = true := by simp [hc]
      simp only [List.cons_append, List.takeWhile_cons, hcb, if_true]
      rw [ih (fun hm => h (List.mem_cons_of_mem _ hm))]
  rw [h1]
  simp

/-- C7 (as amended): for every name `N` and type `T` of the FCB, the pattern
`SysCallFindFirst` passes to the host glob is `g(N)`, followed only if `T` is
neither empty nor three spaces by `.` and `g(T)`, where `g(F)` is the non-space
characters of `F` before its first `?` followed by a single `*` exactly when `F`
contains a `?`. For a three-character type the condition is that some character
is not a space. The pattern never contains `?`; each field adds at most one `*`
to the literal `*` characters it already holds; and nothing of a field is
emitted after its first `?`. -/
theorem globPattern_spec (N T : List Char) :
    globPattern N T
      = specGlobField N
        ++ (if T ≠ [] ∧ T ≠ [' ', ' ', ' '] then '.' :: specGlobField T else []) ∧
    (∀ a b c : Char, ([a, b, c] ≠ [] ∧ [a, b, c] ≠ [' ', ' ', ' '])
      ↔ (a ≠ ' ' ∨ b ≠ ' ' ∨ c ≠ ' ')) ∧
    '?' ∉ globPattern N T ∧
    (specGlobField N).count '*' ≤ N.count '*' + 1 ∧
    (specGlobField T).count '*' ≤ T.count '*' + 1 ∧
    (∀ pre post : List Char, '?' ∉ pre →
      specGlobField (pre ++ '?' :: post) = pre.filter (fun c => c != ' ') ++ ['*']) := by
  have heq : globPattern N T
      = specGlobField N
        ++ (if T ≠ [] ∧ T ≠ [' ', ' ', ' '] then '.' :: specGlobField T else []) := by
    unfold globPattern
    simp only [globLoop_eq, List.nil_append]
    by_cases hT : T ≠ [] ∧ T ≠ [' ', ' ', ' ']
    · simp only [if_pos hT, List.append_assoc, List.singleton_append]
    · simp only [if_neg hT, List.append_nil]
      have hblank : specGlobField T = [] := by
        by_cases h0 : T = []
        · subst h0; rfl
        · have h3 : T = [' ', ' ', ' '] := by
            by_contra h3
            exact hT ⟨h0, h3⟩
          subst h3; decide
      rw [hblank, List.append_nil]
  refine ⟨heq, ?_, ?_, specGlobField_count_star N, specGlobField_count_star T,
    specGlobField_cut⟩
  · intro a b c
    constructor
    · rintro ⟨_, h⟩
      by_contra hall
      push_neg at hall
      exact h (by rw [hall.1, hall.2.1, hall.2.2])
    · intro h
      refine ⟨by simp, ?_⟩
      intro heq3
      simp only [List.cons.injEq, and_true] at heq3
      rcases h with h | h | h
      · exact h heq3.1
      · exact h heq3.2.1
      · exact h heq3.2.2
  · rw [heq]
    intro hmem
    rcases List.mem_append.mp hmem with h1 | h2
    · exact specGlobField_no_question N h1
    · split at h2
      · rcases List.mem_cons.mp h2 with h3 | h3
        · exact absurd h3 (by decide)
        · exact specGlobField_no_question T h3
      · simp at h2

/-- C7 at a concrete input: the name `AB?D` splits at its `?`. -/
theorem globPattern_spec_witness :
    '?' ∉ ['A', 'B'] ∧
    specGlobField (['A', 'B'] ++ '?' :: ['D'])
      = ['A', 'B'].filter (fun c => c != ' ') ++ ['*'] :=
  ⟨by decide, (globPattern_spec ['A', 'B', '?', 'D'] []).2.2.2.2.2 ['A', 'B'] ['D']
    (by decide)⟩

/-- C7 fails as stated: the name field `*?      ` with a blank type yields the
pattern `**`, which holds two `*` for the one field. -/
theorem globPattern_two_stars :
    globPattern ['*', '?', ' ', ' ', ' ', ' ', ' ', ' '] [' ', ' ', ' '] = ['*', '*'] ∧
    (globPattern ['*', '?', ' ', ' ', ' ', ' ', ' ', ' '] [' ', ' ', ' ']).count '*' = 2 := by
  decide

/-! ## The file-handle cache (C8) -/

theorem CacheInv_insert (files : Nat → Option FileCache) (fds : Nat → Option OSFile)
    (nextFd ptr : Nat) (nm : List Char) (f : OSFile)
    (hinv : CacheInv files fds nextFd) (hnone : files ptr = none) :
    CacheInv (fun p => if p = ptr then some { name := nm, handle := nextFd } else files p)
      (fun d => if d = nextFd then some f else fds d) (nextFd + 1) := by
  obtain ⟨h1, h2, h3⟩ := hinv
  have hfree : fds nextFd = none := h3 nextFd (Nat.le_refl _)
  refine ⟨?_, ?_, ?_⟩
  · intro fd g hg
    by_cases hfd : fd = nextFd
    · subst hfd
      refine ⟨ptr, ⟨{ name := nm, handle := fd }, by simp, rfl⟩, ?_⟩
      rintro q ⟨fc, hq, hh⟩
      by_contra hne
      simp only [if_neg hne] at hq
      exact h2 q fc hq (by rw [hh]; exact hfree)
    · simp only [if_neg hfd] at hg
      obtain ⟨q, ⟨fc, hq, hh⟩, huniq⟩ := h1 fd g hg
      have hqp : q ≠ ptr := by
        intro h; rw [h, hnone] at hq; cases hq
      refine ⟨q, ⟨fc, by simp only [if_neg hqp]; exact hq, hh⟩, ?_⟩
      rintro q' ⟨fc', hq', hh'⟩
      by_cases hq'p : q' = ptr
      · simp only [if_pos hq'p, Option.some.injEq] at hq'
        subst hq'
        exact absurd hh'.symm hfd
      · simp only [if_neg hq'p] at hq'
        exact huniq q' ⟨fc', hq', hh'⟩
  · intro q fc hq
    by_cases hqp : q = ptr
    · simp only [if_pos hqp, Option.some.injEq] at hq
      subst hq
      simp
    · simp only [if_neg hqp] at hq
      have := h2 q fc hq
      by_cases hh : fc.handle = nextFd
      · simp [hh]
      · simp only [if_neg hh]; exact this
  · intro fd hfd
    have hne : fd ≠ nextFd := by omega
    simp only [if_neg hne]
    exact h3 fd (by omega)

theorem CacheInv_remove (files : Nat → Option FileCache) (fds : Nat → Option OSFile)
    (nextFd ptr : Nat) (obj : FileCache) (f : OSFile)
    (hinv : CacheInv files fds nextFd) (hobj : files ptr = some obj)
    (hopen : fds obj.handle = some f) :
    CacheInv (fun p => if p = ptr then none else files p)
      (fun d => if d = obj.handle then none else fds d) nextFd := by
  obtain ⟨h1, h2, h3⟩ := hinv
  obtain ⟨p0, _, hp0⟩ := h1 obj.handle f hopen
  have hown : ∀ q fc, files q = some fc → fc.handle = obj.handle → q = ptr := by
    intro q fc hq hh
    rw [hp0 q ⟨fc, hq, hh⟩, hp0 ptr ⟨obj, hobj, rfl⟩]
  refine ⟨?_, ?_, ?_⟩
  · intro fd g hg
    by_cases hfd : fd = obj.handle
    · simp [hfd] at hg
    · simp only [if_neg hfd] at hg
      obtain ⟨q, ⟨fc, hq, hh⟩, huniq⟩ := h1 fd g hg
      have hqp : q ≠ ptr := by
        intro h; rw [h, hobj] at hq
        simp only [Option.some.injEq] at hq
        subst hq
        exact hfd hh.symm
      refine ⟨q, ⟨fc, by simp only [if_neg hqp]; exact hq, hh⟩, ?_⟩
      rintro q' ⟨fc', hq', hh'⟩
      by_cases hq'p : q' = ptr
      · simp [hq'p] at hq'
      · simp only [if_neg hq'p] at hq'
        exact huniq q' ⟨fc', hq', hh'⟩
  · intro q fc hq
    by_cases hqp : q = ptr
    · simp [hqp] at hq
    · simp only [if_neg hqp] at hq
      have hne : fc.handle ≠ obj.handle := fun hh => hqp (hown q fc hq hh)
      simp only [if_neg hne]
      exact h2 q fc hq
  · intro fd hfd
    by_cases hh : fd = obj.handle
    · simp [hh]
    · simp only [if_neg hh]; exact h3 fd hfd

theorem SysCallFileOpen_effect (cpm : CPM) (host : Host) :
    let nm := fileNameOf (FromBytes (GetRange cpm.Memory cpm.DE 36))
    let out := SysCallFileOpen cpm host
    (out.err ≠ none ∧ out.cpm.files = cpm.files ∧ out.host.fds = host.fds ∧
        out.host.nextFd = host.nextFd) ∨
    (out.cpm.files = (fun p => if p = cpm.DE then some { name := nm, handle := host.nextFd }
        else cpm.files p) ∧
      out.host.fds = (fun d => if d = host.nextFd then some { name := nm, pos := 0 }
        else host.fds d) ∧
      out.host.nextFd = host.nextFd + 1) := by
  intro nm out
  cases hd : host.denied nm with
  | true =>
    left
    simp [nm] at hd
    simp [out, SysCallFileOpen, Host.OpenFile, hd]
  | false =>
    right
    simp [nm] at hd
    cases hs : host.statFails host.nextFd <;>
      simp [out, SysCallFileOpen, Host.OpenFile, hd, Host.Size, hs]

theorem SysCallMakeFile_effect (cpm : CPM) (host : Host) :
    let nm := fileNameOf (FromBytes (GetRange cpm.Memory cpm.DE 36))
    let out := SysCallMakeFile cpm host
    (out.err ≠ none ∧ out.cpm.files = cpm.files ∧ out.host.fds = host.fds ∧
        out.host.nextFd = host.nextFd) ∨
    out.err = some Err.statFailed ∨
    (out.err = none ∧
      out.cpm.files = (fun p => if p = cpm.DE then some { name := nm, handle := host.nextFd }
        else cpm.files p) ∧
      out.host.fds = (fun d => if d = host.nextFd then some { name := nm, pos := 0 }
        else host.fds d) ∧
      out.host.nextFd = host.nextFd + 1) := by
  intro nm out
  cases hd : host.denied nm with
  | true =>
    left
    simp [nm] at hd
    simp [out, SysCallMakeFile, Host.OpenFile, hd]
  | false =>
    right
    simp [nm] at hd
    cases hs : host.statFails host.nextFd with
    | true =>
      left
      simp [out, SysCallMakeFile, Host.OpenFile, hd, Host.Size, hs]
    | false =>
      right
      simp [out, SysCallMakeFile, Host.OpenFile, hd, Host.Size, hs]

theorem SysCallFileClose_effect (cpm : CPM) (host : Host) :
    let out := SysCallFileClose cpm host
    (out.err ≠ none ∧ out.cpm.files = cpm.files ∧ out.host.fds = host.fds ∧
        out.host.nextFd = host.nextFd) ∨
    (∃ obj f, cpm.files cpm.DE = some obj ∧ host.fds obj.handle = some f ∧ out.err = none ∧
      out.cpm.files = (fun p => if p = cpm.DE then none else cpm.files p) ∧
      out.host.fds = (fun d => if d = obj.handle then none else host.fds d) ∧
      out.host.nextFd = host.nextFd) := by
  intro out
  cases hf : cpm.files cpm.DE with
  | none => left; simp [out, SysCallFileClose, hf]
  | some obj =>
    cases hh : host.fds obj.handle with
    | none => left; simp [out, SysCallFileClose, hf, Host.Close, hh]
    | some f =>
      right
      exact ⟨obj, f, rfl, hh, by simp [out, SysCallFileClose, hf, Host.Close, hh]⟩

theorem callStep_inv (c : Call) (s : CPM × Host)
    (hinv : CacheInv s.1.files s.2.fds s.2.nextFd) (hfresh : noReuse [c] s = true)
    (hstat : makeStatOk [c] s = true) :
    CacheInv (callStep c s).1.files (callStep c s).2.fds (callStep c s).2.nextFd := by
  cases c with
  | fileOpen ptr =>
    have hnone : s.1.files ptr = none := by
      simpa [noReuse, Option.isNone_iff_eq_none] using hfresh
    rcases SysCallFileOpen_effect { s.1 with DE := ptr } s.2 with ⟨_, h1, h2, h3⟩ | ⟨h1, h2, h3⟩
    · simp only [callStep, callOutcome, h1, h2, h3]; exact hinv
    · simp only [callStep, callOutcome, h1, h2, h3]
      exact CacheInv_insert _ _ _ _ _ _ hinv hnone
  | makeFile ptr =>
    have hnone : s.1.files ptr = none := by
      simpa [noReuse, Option.isNone_iff_eq_none] using hfresh
    have hok : (SysCallMakeFile { s.1 with DE := ptr } s.2).err ≠ some Err.statFailed := by
      simpa [makeStatOk, callOutcome] using hstat
    rcases SysCallMakeFile_effect { s.1 with DE := ptr } s.2 with
      ⟨_, h1, h2, h3⟩ | hbad | ⟨_, h1, h2, h3⟩
    · simp only [callStep, callOutcome, h1, h2, h3]; exact hinv
    · exact absurd hbad hok
    · simp only [callStep, callOutcome, h1, h2, h3]
      exact CacheInv_insert _ _ _ _ _ _ hinv hnone
  | fileClose ptr =>
    rcases SysCallFileClose_effect { s.1 with DE := ptr } s.2 with
      ⟨_, h1, h2, h3⟩ | ⟨obj, f, hobj, hopen, _, h1, h2, h3⟩
    · simp only [callStep, callOutcome, h1, h2, h3]; exact hinv
    · simp only [callStep, callOutcome, h1, h2, h3]
      exact CacheInv_remove _ _ _ _ _ _ hinv hobj hopen

theorem runCalls_inv (calls : List Call) (s : CPM × Host)
    (hinv : CacheInv s.1.files s.2.fds s.2.nextFd) (hfresh : noReuse calls s = true)
    (hstat : makeStatOk calls s = true) :
    CacheInv (runCalls calls s).1.files (runCalls calls s).2.fds (runCalls calls s).2.nextFd := by
  induction calls generalizing s with
  | nil => exact hinv
  | cons c cs ih =>
    simp only [noReuse, Bool.and_eq_true] at hfresh
    simp only [makeStatOk, Bool.and_eq_true] at hstat
    exact ih (callStep c s)
      (callStep_inv c s hinv (by simp [noReuse, hfresh.1])
        (by simp only [makeStatOk, Bool.and_eq_true, and_true]; exact hstat.1))
      hfresh.2 hstat.2

theorem replaced_handle_leaks (files files' : Nat → Option FileCache)
    (fds fds' : Nat → Option OSFile) (nextFd ptr : Nat) (nm : List Char) (old : FileCache)
    (f : OSFile) (hinv : CacheInv files fds nextFd)
    (hold : files ptr = some old) (hopen : fds old.handle = some f)
    (hfiles : files' = fun p => if p = ptr then some { name := nm, handle := nextFd } else files p)
    (hfds : fds' = fun d => if d = nextFd then some { name := nm, pos := 0 } else fds d) :
    fds' old.handle = some f ∧ ∀ p fc, files' p = some fc → fc.handle ≠ old.handle := by
  obtain ⟨h1, _, h3⟩ := hinv
  have hne : old.handle ≠ nextFd := by
    intro h
    have := h3 old.handle (by omega)
    rw [hopen] at this
    cases this
  obtain ⟨p0, _, hp0⟩ := h1 old.handle f hopen
  subst hfiles hfds
  refine ⟨by simp only [if_neg hne]; exact hopen, ?_⟩
  intro p fc hp hh
  by_cases hpp : p = ptr
  · simp only [if_pos hpp, Option.some.injEq] at hp
    subst hp
    exact hne hh.symm
  · simp only [if_neg hpp] at hp
    exact hpp (by rw [hp0 p ⟨fc, hp, hh⟩, hp0 ptr ⟨old, hold, rfl⟩])

theorem CacheInv_boot (files : Nat → Option FileCache) (hfiles : ∀ p, files p = none)
    (nextFd : Nat) : CacheInv files (fun _ => none) nextFd := by
  refine ⟨?_, ?_, ?_⟩
  · intro fd f h
    cases h
  · intro p fc h
    rw [hfiles p] at h
    cases h
  · intro fd _
    rfl

/-- C8 (as amended): from boot (empty cache, no open host file handle), after
every sequence of Open, Make and Close calls in which no Open or Make is issued
on an FCB address that has a cache entry at that moment and no Make fails at
`Stat`, every open host file handle is held by exactly one File Handle Cache
entry. When, after such a sequence, `SysCallFileOpen` or `SysCallMakeFile`
succeeds on an FCB address that already has a cache entry, the entry is replaced
without the prior handle being closed: the prior handle stays open and no cache
entry holds it. -/
theorem FileCache_handles (calls : List Call) (cpm : CPM) (host : Host)
    (hcache : ∀ p, cpm.files p = none) (hfds : ∀ fd, host.fds fd = none)
    (hfresh : noReuse calls (cpm, host) = true)
    (hstat : makeStatOk calls (cpm, host) = true) :
    HandlesHeldOnce (runCalls calls (cpm, host)).1.files (runCalls calls (cpm, host)).2.fds ∧
    (∀ ptr old, (runCalls calls (cpm, host)).1.files ptr = some old →
      ∀ c, (c = Call.fileOpen ptr ∨ c = Call.makeFile ptr) →
        (callOutcome c (runCalls calls (cpm, host))).err = none →
        (callOutcome c (runCalls calls (cpm, host))).host.fds old.handle ≠ none ∧
        ∀ p fc, (callOutcome c (runCalls calls (cpm, host))).cpm.files p = some fc →
          fc.handle ≠ old.handle) := by
  have hboot : CacheInv cpm.files host.fds host.nextFd := by
    have hf : host.fds = fun _ => none := funext hfds
    rw [hf]
    exact CacheInv_boot _ hcache _
  have hinv := runCalls_inv calls (cpm, host) hboot hfresh hstat
  refine ⟨hinv.1, ?_⟩
  intro ptr old hold c hc herr
  obtain ⟨f, hopen⟩ : ∃ f, (runCalls calls (cpm, host)).2.fds old.handle = some f :=
    Option.ne_none_iff_exists'.mp (hinv.2.1 ptr old hold)
  rcases hc with rfl | rfl
  · rcases SysCallFileOpen_effect { (runCalls calls (cpm, host)).1 with DE := ptr }
      (runCalls calls (cpm, host)).2 with ⟨h0, _⟩ | ⟨h1, h2, _⟩
    · exact absurd herr h0
    · have h := replaced_handle_leaks _ _ _ _ _ _ _ _ _ hinv hold hopen h1 h2
      exact ⟨by simp only [callOutcome]; rw [h.1]; simp, h.2⟩
  · rcases SysCallMakeFile_effect { (runCalls calls (cpm, host)).1 with DE := ptr }
      (runCalls calls (cpm, host)).2 with ⟨h0, _⟩ | hbad | ⟨_, h1, h2, _⟩
    · exact absurd herr h0
    · simp only [callOutcome] at herr
      rw [hbad] at herr
      cases herr
    · have h := replaced_handle_leaks _ _ _ _ _ _ _ _ _ hinv hold hopen h1 h2
      exact ⟨by simp only [callOutcome]; rw [h.1]; simp, h.2⟩

/-- C8 as amended, at a concrete input: from the boot state, Open, Close and
Make on the FCB at `0x5C`. -/
theorem FileCache_handles_witness :
    (∀ p, (demoCpm nameF 0 0 0 0 0x80 (fun _ => none)).files p = none) ∧
    (∀ fd, bootHost.fds fd = none) ∧
    noReuse [Call.fileOpen 0x5C, Call.fileClose 0x5C, Call.makeFile 0x5C]
      (demoCpm nameF 0 0 0 0 0x80 (fun _ => none), bootHost) = true ∧
    makeStatOk [Call.fileOpen 0x5C, Call.fileClose 0x5C, Call.makeFile 0x5C]
      (demoCpm nameF 0 0 0 0 0x80 (fun _ => none), bootHost) = true ∧
    HandlesHeldOnce
      (runCalls [Call.fileOpen 0x5C, Call.fileClose 0x5C, Call.makeFile 0x5C]
        (demoCpm nameF 0 0 0 0 0x80 (fun _ => none), bootHost)).1.files
      (runCalls [Call.fileOpen 0x5C, Call.fileClose 0x5C, Call.makeFile 0x5C]
        (demoCpm nameF 0 0 0 0 0x80 (fun _ => none), bootHost)).2.fds :=
  ⟨fun _ => rfl, fun _ => rfl, by decide, by decide,
    (FileCache_handles [Call.fileOpen 0x5C, Call.fileClose 0x5C, Call.makeFile 0x5C]
      (demoCpm nameF 0 0 0 0 0x80 (fun _ => none)) bootHost
      (fun _ => rfl) (fun _ => rfl) (by decide) (by decide)).1⟩

/-- C8 fails as stated: from the boot state, two successive Opens on the FCB at
`0x5C` both succeed; the handle 0 of the first Open is still open afterwards,
and no cache entry holds it (the only entry holds handle 1). -/
theorem FileCache_leak_on_reopen :
    (SysCallFileOpen (demoCpm nameF 0 0 0 0 0x80 (fun _ => none)) bootHost).err = none ∧
    (SysCallFileOpen (callStep (Call.fileOpen 0x5C)
        (demoCpm nameF 0 0 0 0 0x80 (fun _ => none), bootHost)).1
      (callStep (Call.fileOpen 0x5C)
        (demoCpm nameF 0 0 0 0 0x80 (fun _ => none), bootHost)).2).err = none ∧
    (runCalls [Call.fileOpen 0x5C, Call.fileOpen 0x5C]
      (demoCpm nameF 0 0 0 0 0x80 (fun _ => none), bootHost)).2.fds 0
      = some { name := ['F'], pos := 0 } ∧
    ¬ HandlesHeldOnce
      (runCalls [Call.fileOpen 0x5C, Call.fileOpen 0x5C]
        (demoCpm nameF 0 0 0 0 0x80 (fun _ => none), bootHost)).1.files
      (runCalls [Call.fileOpen 0x5C, Call.fileOpen 0x5C]
        (demoCpm nameF 0 0 0 0 0x80 (fun _ => none), bootHost)).2.fds := by
  refine ⟨by decide, by decide, by decide, ?_⟩
  intro h
  obtain ⟨p, ⟨fc, hp, hh⟩, _⟩ := h 0 { name := ['F'], pos := 0 } (by decide)
  have hp2 : (if p = 0x5C then some (FileCache.mk ['F'] 1)
      else if p = 0x5C then some (FileCache.mk ['F'] 0) else none) = some fc := hp
  by_cases hpp : p = 0x5C
  · rw [if_pos hpp] at hp2
    cases hp2
    cases hh
  · rw [if_neg hpp, if_neg hpp] at hp2
    cases hp2

/-- The path left out of the amended C8: when `Stat` fails in `SysCallMakeFile`,
the handler returns the error with the new handle open and not cached, whereas
`SysCallFileOpen`, which stores the handle before `Stat`, keeps it cached. -/
theorem SysCallMakeFile_stat_failure (cpm : CPM) :
    (SysCallMakeFile cpm { bootHost with statFails := fun _ => true }).err
      = some Err.statFailed ∧
    (SysCallMakeFile cpm { bootHost with statFails := fun _ => true }).host.fds 0 ≠ none ∧
    (SysCallMakeFile cpm { bootHost with statFails := fun _ => true }).cpm.files = cpm.files ∧
    (SysCallFileOpen cpm { bootHost with statFails := fun _ => true }).err
      = some Err.statFailed ∧
    ((SysCallFileOpen cpm { bootHost with statFails := fun _ => true }).cpm.files cpm.DE).map
      FileCache.handle = some 0 := by
  simp [SysCallMakeFile, SysCallFileOpen, Host.OpenFile, Host.Size, bootHost]

/-! ## Console and drive state (C9, C10) -/

/-- C9 (code defect): whenever raw mode was entered and reading the byte from
the console fails, `SysCallReadChar` returns the read error with the terminal
left in raw mode, so a terminal that was in cooked mode before the call is not
restored; only the path on which the read succeeds restores the prior mode. -/
theorem SysCallReadChar_read_failure_leaves_raw (cpm : CPM) (host : Host) (restoreOk : Bool) :
    (SysCallReadChar { makeRawOk := true, stdinByte := none, restoreOk := restoreOk } cpm
      { host with term := TermMode.cooked }).err = some Err.stdinReadFailed ∧
    (SysCallReadChar { makeRawOk := true, stdinByte := none, restoreOk := restoreOk } cpm
      { host with term := TermMode.cooked }).host.term = TermMode.raw ∧
    TermMode.raw ≠ TermMode.cooked ∧
    (∀ b, (SysCallReadChar { makeRawOk := true, stdinByte := some b, restoreOk := true } cpm
      host).host.term = host.term) := by
  refine ⟨rfl, rfl, by decide, fun b => rfl⟩

/-- C10 (code defect): after `SysCallDriveAllReset` the user number is 0 and `A`
is `0x00`, but the current drive is 1 (B:), and `SysCallDriveGet` then returns 1
in `A`, not the default drive A: (index 0) the driver documents. -/
theorem SysCallDriveAllReset_selects_drive_one (cpm : CPM) (host : Host) :
    (SysCallDriveAllReset cpm host).cpm.currentDrive = 1 ∧
    (SysCallDriveGet (SysCallDriveAllReset cpm host).cpm
      (SysCallDriveAllReset cpm host).host).cpm.A = 1 ∧
    (SysCallDriveAllReset cpm host).cpm.currentDrive ≠ defaultDrive ∧
    (SysCallDriveAllReset cpm host).cpm.userNumber = 0 ∧
    (SysCallDriveAllReset cpm host).cpm.A = 0x00 := by
  refine ⟨rfl, rfl, by simp [SysCallDriveAllReset, defaultDrive], rfl, rfl⟩

/-! ## Building an FCB from a path (C11) -/

theorem toUpper_eq_dot (c : Char) (h : c.toUpper = '.') : c = '.' := by
  simp only [Char.toUpper] at h
  split_ifs at h with hr
  · exfalso
    have h97 : 97 ≤ c.toNat := hr.1
    have h122 : c.toNat ≤ 122 := hr.2
    generalize c.toNat = n at h h97 h122
    interval_cases n <;> exact absurd h (by decide)
  · exact h

theorem dot_not_mem_upper (name : List Char) (h : '.' ∉ name) :
    '.' ∉ name.map Char.toUpper := by
  intro hm
  obtain ⟨c, hc, hcu⟩ := List.mem_map.mp hm
  rw [toUpper_eq_dot c hcu] at hc
  exact h hc

theorem trimRight_append_spaces (l : List Char) (k : Nat) :
    trimRight (l ++ List.replicate k ' ') = trimRight l := by
  unfold trimRight
  rw [List.reverse_append, List.reverse_replicate]
  congr 1
  induction k with
  | zero => rfl
  | succ k ih =>
    rw [List.replicate_succ, List.cons_append, List.dropWhile_cons_of_pos (by decide)]
    exact ih

theorem trimRight_of_last (l : List Char) (h : l.getLast? ≠ some ' ') : trimRight l = l := by
  unfold trimRight
  have hh : l.reverse.head? ≠ some ' ' := by rwa [List.head?_reverse]
  cases hr : l.reverse with
  | nil =>
    have : l = [] := List.reverse_eq_nil_iff.mp hr
    simp [this]
  | cons c cs =>
    rw [hr] at hh
    have hc : c ≠ ' ' := fun hc => hh (by simp [hc])
    rw [List.dropWhile_cons_of_neg (by simp [hc]), ← hr, List.reverse_reverse]

theorem ofNat_toNat_map (l : List Char) : (l.map Char.toNat).map Char.ofNat = l := by
  induction l with
  | nil => rfl
  | cons c cs ih => simp [Char.ofNat_toNat, ih]

theorem nameField_chars (nm : List Char) :
    (fixed 8 ((nm.map Char.toNat ++ List.replicate 8 32).take 8)).map Char.ofNat
      = (nm ++ List.replicate 8 ' ').take 8 := by
  have hfix : fixed 8 ((nm.map Char.toNat ++ List.replicate 8 32).take 8)
      = (nm.map Char.toNat ++ List.replicate 8 32).take 8 := by
    unfold fixed
    rw [List.take_append_of_le_length (by simp), List.take_take]
    simp
  rw [hfix, List.map_take, List.map_append, ofNat_toNat_map]
  rfl

theorem trimRight_nameField (nm : List Char) :
    trimRight ((nm ++ List.replicate 8 ' ').take 8) = trimRight (nm.take 8) := by
  by_cases hlen : 8 ≤ nm.length
  · rw [List.take_append_of_le_length hlen]
  · have h8 : nm.take 8 = nm := List.take_of_length_le (by omega)
    rw [List.take_append_eq_append_take, h8, List.take_replicate, trimRight_append_spaces]

theorem FromString_prefixed (d : Char) (name : List Char)
    (hd : 'A'.toNat ≤ d.toUpper.toNat ∧ d.toUpper.toNat ≤ 'P'.toNat)
    (hdot : '.' ∉ name) :
    FromString (d :: ':' :: name) =
      { Drive := d.toUpper.toNat - 'A'.toNat
        Name := ((name.map Char.toUpper).map Char.toNat ++ List.replicate 8 32).take 8
        Typ := [32, 32, 32]
        Ex := 0
        S1 := 0
        S2 := 0
        RC := 0
        Al := List.replicate 16 0
        Cr := 0
        R0 := 0
        R1 := 0
        R2 := 0 } := by
  have hcolon : Char.toUpper ':' = ':' := rfl
  have hno : (name.map Char.toUpper).contains '.' = false := by
    have := dot_not_mem_upper name hdot
    simpa using this
  simp only [FromString, List.map_cons, hcolon, hd, and_self, if_true, hno]
  rfl

/-- C11 (as amended): for every path `<d>:<name>` where `<d>` is a drive letter
(`a`..`p` in either case) and `<name>` contains no `.`, `FromString` yields
`Drive` equal to the zero-based index of the letter, `GetName()` equal to
`<name>` upper-cased, truncated to at most 8 characters and stripped of trailing
spaces (so equal to the truncated upper-cased name whenever that does not end in
a space), and `GetType()` equal to the empty string. -/
theorem FromString_drive_name (d : Char) (name : List Char)
    (hd : 'A'.toNat ≤ d.toUpper.toNat ∧ d.toUpper.toNat ≤ 'P'.toNat)
    (hdot : '.' ∉ name) :
    (FromString (d :: ':' :: name)).Drive = d.toUpper.toNat - 'A'.toNat ∧
    (FromString (d :: ':' :: name)).GetName = trimRight ((name.map Char.toUpper).take 8) ∧
    (((name.map Char.toUpper).take 8).getLast? ≠ some ' ' →
      (FromString (d :: ':' :: name)).GetName = (name.map Char.toUpper).take 8) ∧
    (FromString (d :: ':' :: name)).GetType = [] := by
  have hname : (FromString (d :: ':' :: name)).GetName
      = trimRight ((name.map Char.toUpper).take 8) := by
    rw [FromString_prefixed d name hd hdot]
    simp only [FCB.GetName]
    rw [nameField_chars, trimRight_nameField]
  refine ⟨by rw [FromString_prefixed d name hd hdot], hname, ?_, ?_⟩
  · intro hsp
    rw [hname, trimRight_of_last _ hsp]
  · rw [FromString_prefixed d name hd hdot]
    rfl

/-- C11 as amended, at the two inputs of `TestFCBFromString`: `b:foo` gives
`(1, FOO, empty)` and `c:this-is-a-long-name` gives `(2, THIS-IS-, empty)`. -/
theorem FromString_drive_name_witness :
    ((FromString ['b', ':', 'f', 'o', 'o']).Drive = 1 ∧
      (FromString ['b', ':', 'f', 'o', 'o']).GetName = ['F', 'O', 'O'] ∧
      (FromString ['b', ':', 'f', 'o', 'o']).GetType = []) ∧
    ((FromString ('c' :: ':' :: "this-is-a-long-name".toList)).Drive = 2 ∧
      (FromString ('c' :: ':' :: "this-is-a-long-name".toList)).GetName
        = ['T', 'H', 'I', 'S', '-', 'I', 'S', '-'] ∧
      (FromString ('c' :: ':' :: "this-is-a-long-name".toList)).GetType = []) :=
  have h1 := FromString_drive_name 'b' ['f', 'o', 'o'] (by decide) (by decide)
  have h2 := FromString_drive_name 'c' "this-is-a-long-name".toList (by decide) (by decide)
  ⟨⟨h1.1, h1.2.2.1 (by decide), h1.2.2.2⟩, ⟨h2.1, h2.2.2.1 (by decide), h2.2.2.2⟩⟩

/-- C11 fails as stated: for the path `b:foo ` (the name ends in a space and
has no `.`) the name upper-cased and truncated to 8 characters is `FOO `, but
`GetName()` is `FOO`, the trailing space being taken for padding. -/
theorem FromString_trailing_space :
    ('A'.toNat ≤ 'b'.toUpper.toNat ∧ 'b'.toUpper.toNat ≤ 'P'.toNat) ∧
    '.' ∉ ['f', 'o', 'o', ' '] ∧
    (['f', 'o', 'o', ' '].map Char.toUpper).take 8 = ['F', 'O', 'O', ' '] ∧
    (FromString ['b', ':', 'f', 'o', 'o', ' ']).GetName = ['F', 'O', 'O'] ∧
    (FromString ['b', ':', 'f', 'o', 'o', ' ']).GetName
      ≠ (['f', 'o', 'o', ' '].map Char.toUpper).take 8 := by
  decide

/-! ## Random write inside the file (C12) -/

theorem writeAt_length_ge (c a : List Nat) (p : Nat) : p + a.length ≤ (writeAt c p a).length := by
  unfold writeAt
  simp only [List.length_append, List.length_take, List.length_replicate, List.length_drop]
  omega

theorem writeAt_of_le (w b : List Nat) (q : Nat) (h : q ≤ w.length) :
    writeAt w q b = w.take q ++ b ++ w.drop (q + b.length) := by
  unfold writeAt
  rw [Nat.sub_eq_zero_of_le h, List.replicate_zero, List.append_nil]

theorem writeAt_writeAt (c a b : List Nat) (p : Nat) :
    writeAt (writeAt c p a) (p + a.length) b = writeAt c p (a ++ b) := by
  have hge := writeAt_length_ge c a p
  have hL : ((c ++ List.replicate (p - c.length) 0).take p).length = p := by
    simp only [List.length_take, List.length_append, List.length_replicate]
    omega
  have hfront : (writeAt c p a).take (p + a.length)
      = (c ++ List.replicate (p - c.length) 0).take p ++ a := by
    unfold writeAt
    rw [List.take_append_of_le_length (by simp only [List.length_append, hL]; omega)]
    exact List.take_of_length_le (by simp only [List.length_append, hL]; omega)
  have hback : (writeAt c p a).drop (p + a.length + b.length)
      = c.drop (p + (a ++ b).length) := by
    unfold writeAt
    rw [List.drop_append_eq_append_drop, List.drop_of_length_le
      (by simp only [List.length_append, hL]; omega)]
    simp only [List.length_append, hL, List.nil_append, List.drop_drop]
    congr 1
    omega
  rw [writeAt_of_le _ _ _ hge, hfront, hback]
  unfold writeAt
  simp only [List.append_assoc]

theorem padLoop_zeros (host : Host) (fd : Nat) (f : OSFile) (n : Nat)
    (hfd : host.fds fd = some f) :
    ∃ host1, padLoop host fd (n + 1) = some host1 ∧
      host1.disk f.name
        = some (writeAt ((host.disk f.name).getD []) f.pos (List.replicate (n + 1) 0)) ∧
      host1.fds fd = some { f with pos := f.pos + (n + 1) } := by
  induction n generalizing host f with
  | zero =>
    refine ⟨_, by simp only [padLoop, Host.Write, hfd]; rfl, ?_, ?_⟩
    · simp
    · simp
  | succ n ih =>
    have hstep : padLoop host fd (n + 1 + 1)
        = padLoop
            { host with
              disk := fun nm => if nm = f.name
                then some (writeAt ((host.disk f.name).getD []) f.pos [0x00]) else host.disk nm
              fds := fun d => if d = fd then some { f with pos := f.pos + 1 } else host.fds d }
            fd (n + 1) := by
      conv_lhs => unfold padLoop
      simp only [Host.Write, hfd]
      rfl
    obtain ⟨host1, h1, h2, h3⟩ := ih
      { host with
        disk := fun nm => if nm = f.name
          then some (writeAt ((host.disk f.name).getD []) f.pos [0x00]) else host.disk nm
        fds := fun d => if d = fd then some { f with pos := f.pos + 1 } else host.fds d }
      { f with pos := f.pos + 1 } (by simp)
    refine ⟨host1, by rw [hstep, h1], ?_, ?_⟩
    · rw [h2]
      simp only [if_true, Option.getD_some]
      have := writeAt_writeAt ((host.disk f.name).getD []) [0] (List.replicate (n + 1) 0) f.pos
      simp only [List.length_singleton] at this
      rw [this]
      rfl
    · rw [h3]
      simp only [OSFile.mk.injEq, Option.some.injEq, true_and]
      omega

theorem SysCallWriteRand_inside_effect (cpm : CPM) (host : Host) (obj : FileCache) (f : OSFile)
    (hopen : cpm.files cpm.DE = some obj) (hfd : host.fds obj.handle = some f)
    (hstat : host.statFails obj.handle = false)
    (hin : (FromBytes (GetRange cpm.Memory cpm.DE 36)).record * 128 + 128
      ≤ ((host.disk f.name).getD []).length) :
    (SysCallWriteRand cpm host).err = none ∧ (SysCallWriteRand cpm host).cpm.A = 0x00 ∧
    (SysCallWriteRand cpm host).host.disk f.name
      = some (writeAt
          (writeAt ((host.disk f.name).getD []) f.pos
            (List.replicate (((host.disk f.name).getD []).length
              - (FromBytes (GetRange cpm.Memory cpm.DE 36)).record * 128) 0))
          ((FromBytes (GetRange cpm.Memory cpm.DE 36)).record * 128)
          (GetRange cpm.Memory cpm.dma 128)) := by
  obtain ⟨k, hk⟩ : ∃ k, ((host.disk f.name).getD []).length
      - (FromBytes (GetRange cpm.Memory cpm.DE 36)).record * 128 = k + 1 :=
    ⟨((host.disk f.name).getD []).length
      - (FromBytes (GetRange cpm.Memory cpm.DE 36)).record * 128 - 1, by omega⟩
  have hpad : (writeRandPadding ((host.disk f.name).getD []).length
      ((FromBytes (GetRange cpm.Memory cpm.DE 36)).record * blkSize)).toNat = k + 1 := by
    simp only [writeRandPadding, blkSize]
    omega
  obtain ⟨host1, h1, h2, h3⟩ := padLoop_zeros host obj.handle f k hfd
  have hdata : GetRange cpm.Memory cpm.dma 128 ≠ [] := GetRange_ne_nil _ _ 127
  simp only [SysCallWriteRand, hopen, Host.Size, hfd, hstat, Bool.false_eq_true, if_false]
  rw [hpad, h1]
  simp only [Host.Seek, h3, Host.Write, if_true, hdata, if_false, h2, Option.getD_some, hk,
    blkSize, true_and]

set_option maxRecDepth 1000000 in
/-- C12 (code defect): the file `F` holds 256 bytes of value 7 and is open with
its handle at position 0; the FCB names random record 1, so the record
`[128, 256)` lies wholly inside the file. `SysCallWriteRand` returns without
error with `A = 0x00`, but its padding loop runs `fileSize - fpos = 128` times
and writes zero bytes at positions 0..127 before the record is written: byte 0
and byte 127, both outside the record, change from 7 to 0. -/
theorem SysCallWriteRand_inside_clobbers :
    (demoCpm nameF 0 1 0 0 0x80 demoFiles).files (demoCpm nameF 0 1 0 0 0x80 demoFiles).DE
      = some { name := ['F'], handle := 3 } ∧
    (demoHost (List.replicate 256 7)).fds 3 = some { name := ['F'], pos := 0 } ∧
    (FromBytes (GetRange (demoCpm nameF 0 1 0 0 0x80 demoFiles).Memory 0x5C 36)).record * 128
      + 128 ≤ (((demoHost (List.replicate 256 7)).disk ['F']).getD []).length ∧
    (((demoHost (List.replicate 256 7)).disk ['F']).getD []).getD 0 0 = 7 ∧
    (((demoHost (List.replicate 256 7)).disk ['F']).getD []).getD 127 0 = 7 ∧
    (SysCallWriteRand (demoCpm nameF 0 1 0 0 0x80 demoFiles)
      (demoHost (List.replicate 256 7))).err = none ∧
    (SysCallWriteRand (demoCpm nameF 0 1 0 0 0x80 demoFiles)
      (demoHost (List.replicate 256 7))).cpm.A = 0x00 ∧
    (((SysCallWriteRand (demoCpm nameF 0 1 0 0 0x80 demoFiles)
      (demoHost (List.replicate 256 7))).host.disk ['F']).getD []).getD 0 0 = 0 ∧
    (((SysCallWriteRand (demoCpm nameF 0 1 0 0 0x80 demoFiles)
      (demoHost (List.replicate 256 7))).host.disk ['F']).getD []).getD 127 0 = 0 := by
  refine ⟨rfl, rfl, ?_, ?_, ?_, ?_, ?_, ?_, ?_⟩ <;> decide

end Cpm
